import Mathlib

/-!
# Verification of the NiuMaAgent front-end stream/render core

Shallow embedding, over `List Char`, of the stream-processing and rendering
functions of `src/frontend/app.js` and `src/unnamed/part_001` (the report-page
script): SSE frame reassembly, stream-event application to the draft state,
the clarification round trip, markdown/table repair, chart data sorting and
downsampling, axis tick computation, and discovery/chart placeholder
rendering.  JavaScript strings are modelled as `List Char`; each definition is
translated from the corresponding source function.
-/

namespace NM

/-- Strings of the JavaScript program, modelled as lists of characters. -/
abbrev Str := List Char

/-- Characters treated as whitespace by JavaScript's `trim`, `\s` and the
`[ \t]` classes use subsets of this set; we model the ASCII whitespace that
`String.prototype.trim` removes. -/
def jsWs (c : Char) : Bool :=
  c = ' ' || c = '\t' || c = '\n' || c = '\r' || c = '\x0b' || c = '\x0c'

/-- `s.trimStart()`. -/
def jsTrimStart (s : Str) : Str := s.dropWhile jsWs

/-- `s.trimEnd()`. -/
def jsTrimEnd (s : Str) : Str := (s.reverse.dropWhile jsWs).reverse

/-- `s.trim()`. -/
def jsTrim (s : Str) : Str := jsTrimEnd (jsTrimStart s)

/-- `s.startsWith(p)`. -/
def startsW (p s : Str) : Bool := p.isPrefixOf s

/-- `s.endsWith(p)`. -/
def endsW (p s : Str) : Bool := p.isSuffixOf s

/-- `hay.includes(needle)`. -/
def includesSub (needle : Str) : Str → Bool
  | [] => needle.isEmpty
  | c :: rest => needle.isPrefixOf (c :: rest) || includesSub needle rest

/-- `(s.match(/\|/g) || []).length` — the number of pipe characters. -/
def pipeCount (s : Str) : Nat := s.countP (fun c => c = '|')

/-- Split a string at every occurrence of a single character (JavaScript
`s.split(ch)`). -/
def splitCh (ch : Char) : Str → List Str
  | [] => [[]]
  | c :: rest =>
    if c = ch then [] :: splitCh ch rest
    else
      match splitCh ch rest with
      | [] => [[c]]
      | h :: t => (c :: h) :: t

/-- `parts.join(sep)` for a one-character separator. -/
def joinCh (ch : Char) (parts : List Str) : Str :=
  match parts with
  | [] => []
  | [p] => p
  | p :: ps => p ++ ch :: joinCh ch ps

/-! ## C1 — SSE frame reassembly (`sendMessageStream`, app.js 1065–1100)

The read loop keeps a string `buffer`; on each chunk it appends the chunk,
splits the buffer on the `"\n\n"` frame delimiter, keeps the final segment as
the new buffer and decodes every earlier segment: a segment contributes, for
each of its lines that starts with `"data: "`, the rest of that line as a
frame payload, except for the `"[DONE]"` sentinel; whitespace-only segments
are skipped.  (The `JSON.parse`/`handleStreamEvent` call consumes each payload
unchanged, so the decoded-event sequence is a function of the payload
sequence.) -/

/-- Leftmost, non-overlapping split on the two-newline delimiter, as computed
by JavaScript `buffer.split('\n\n')`. -/
def splitNN : Str → List Str
  | [] => [[]]
  | [c] => [[c]]
  | a :: b :: rest =>
    if a = '\n' ∧ b = '\n' then [] :: splitNN rest
    else
      match splitNN (b :: rest) with
      | [] => [[a]]
      | h :: t => (a :: h) :: t

theorem splitNN_ne_nil : ∀ s : Str, splitNN s ≠ []
  | [] => by simp [splitNN]
  | [c] => by simp [splitNN]
  | a :: b :: rest => by
    simp only [splitNN]
    split
    · simp
    · rcases h : splitNN (b :: rest) with _ | ⟨h₀, t₀⟩ <;> simp

/-- The first segment of `splitNN (y :: rest)`: it is empty only when the
string starts with the delimiter, and otherwise starts with `y`. -/
theorem splitNN_head (y : Char) (rest : Str) :
    ∃ h t, splitNN (y :: rest) = h :: t ∧
      (h = [] → y = '\n') ∧ (∀ u v, h = u :: v → u = y) := by
  match rest with
  | [] =>
    refine ⟨[y], [], by simp [splitNN], by simp, fun u v huv => ?_⟩
    have h2 := congrArg (fun l => l.head?) huv
    simp at h2
    exact h2.symm
  | z :: r =>
    simp only [splitNN]
    split
    · rename_i hnn
      exact ⟨[], splitNN r, rfl, fun _ => hnn.1, by simp⟩
    · rcases h : splitNN (z :: r) with _ | ⟨h₀, t₀⟩
      · exact absurd h (splitNN_ne_nil _)
      · refine ⟨y :: h₀, t₀, rfl, by simp, fun u v huv => ?_⟩
        have h2 := congrArg (fun l => l.head?) huv
        simp at h2
        exact h2.symm

theorem splitNN_append : ∀ a c : Str,
    splitNN (a ++ c) =
      (splitNN a).dropLast ++ splitNN ((splitNN a).getLastD [] ++ c)
  | [], c => by simp [splitNN]
  | [x], c => by simp [splitNN]
  | x :: y :: rest, c => by
    have IH1 := splitNN_append rest c
    have IH2 := splitNN_append (y :: rest) c
    by_cases hnn : x = '\n' ∧ y = '\n'
    · have hL : splitNN ((x :: y :: rest) ++ c) = [] :: splitNN (rest ++ c) := by
        simp [splitNN, hnn]
      have hR : splitNN (x :: y :: rest) = [] :: splitNN rest := by
        simp [splitNN, hnn]
      rcases hrest : splitNN rest with _ | ⟨h₀, t₀⟩
      · exact absurd hrest (splitNN_ne_nil _)
      · rw [hL, hR, IH1, hrest]
        simp only [List.dropLast_cons₂, List.getLastD_cons, List.cons_append]
    · obtain ⟨h₀, t₀, hsp, hemp, hhead⟩ := splitNN_head y rest
      rcases hspc : splitNN (y :: (rest ++ c)) with _ | ⟨g, gs⟩
      · exact absurd hspc (splitNN_ne_nil _)
      have hL : splitNN ((x :: y :: rest) ++ c) = (x :: g) :: gs := by
        simp [splitNN, hnn, hspc]
      have hR : splitNN (x :: y :: rest) = (x :: h₀) :: t₀ := by
        simp [splitNN, hnn, hsp]
      rcases t₀ with _ | ⟨s₁, t₁⟩
      · -- single-segment tail: both sides reduce to splitting `x :: (h₀ ++ c)`
        have hyc : splitNN (y :: (rest ++ c)) = splitNN (h₀ ++ c) := by
          have h2 := IH2
          rw [hsp] at h2
          simpa only [List.dropLast_single, List.getLastD_cons, List.getLastD_nil,
            List.nil_append] using h2
        rw [hL, hR]
        simp only [List.dropLast_single, List.getLastD_cons, List.getLastD_nil,
          List.nil_append, List.cons_append]
        rcases hc : h₀ ++ c with _ | ⟨z, w⟩
        · rw [hc, hspc] at hyc
          have hgg : g = [] ∧ gs = [] := by
            have h3 : g :: gs = [[]] := by simpa [splitNN] using hyc
            have h4 := List.cons.inj h3
            exact ⟨h4.1, h4.2⟩
          rw [hgg.1, hgg.2]
          simp [splitNN]
        · -- the first step on `x :: z :: w` takes the non-delimiter branch
          have hz : ¬ (x = '\n' ∧ z = '\n') := by
            rintro ⟨hx, hzn⟩
            have hy : y ≠ '\n' := fun hy => hnn ⟨hx, hy⟩
            rcases h₀ with _ | ⟨u, v⟩
            · exact hy (hemp rfl)
            · have huy : u = y := hhead u v rfl
              have huz : u = z := by
                have h5 := congrArg (fun l => l.head?) hc
                simp at h5
                exact h5
              exact hy (huy ▸ huz ▸ hzn)
          have hzw : splitNN (z :: w) = g :: gs := by
            rw [hc, hspc] at hyc
            exact hyc.symm
          simp [splitNN, hz, hzw]
      · -- at least two segments: head segment is fixed, recursion continues
        have hyc : g :: gs =
            h₀ :: ((s₁ :: t₁).dropLast ++ splitNN ((s₁ :: t₁).getLastD [] ++ c)) := by
          have h2 := IH2
          rw [List.cons_append] at h2
          rw [hsp, hspc] at h2
          rw [h2]
          simp only [List.dropLast_cons₂, List.getLastD_cons, List.cons_append]
        obtain ⟨hg, hgs⟩ := List.cons.inj hyc
        rw [hL, hR]
        simp only [List.dropLast_cons₂, List.getLastD_cons, List.cons_append]
        rw [hg, hgs]
        simp only [List.getLastD_cons]

/-- The default of `getLastD` is irrelevant on a non-empty list. -/
theorem getLastD_default {α : Type} (B : List α) (d d' : α) (h : B ≠ []) :
    B.getLastD d = B.getLastD d' := by
  cases B with
  | nil => exact absurd rfl h
  | cons b B' => simp only [List.getLastD_cons]

theorem getLastD_append {α : Type} (A : List α) (B : List α) (d : α) (h : B ≠ []) :
    (A ++ B).getLastD d = B.getLastD d := by
  induction A generalizing d with
  | nil => rfl
  | cons a A' ih =>
    rw [List.cons_append, List.getLastD_cons, ih a]
    exact getLastD_default B a d h

theorem dropLast_append_ne_nil {α : Type} (A B : List α) (h : B ≠ []) :
    (A ++ B).dropLast = A ++ B.dropLast := by
  induction A with
  | nil => rfl
  | cons a A' ih =>
    rcases A' with _ | ⟨a', A''⟩
    · rcases B with _ | ⟨b, B'⟩
      · exact absurd rfl h
      · rfl
    · rw [List.cons_append, List.cons_append, List.dropLast_cons₂, ← List.cons_append, ih]
      rfl

/-- The residual buffer kept by the split loop never contains the delimiter:
splitting it again yields the single segment itself. -/
theorem splitNN_lastSeg : ∀ s : Str,
    splitNN ((splitNN s).getLastD []) = [(splitNN s).getLastD []]
  | [] => by simp [splitNN]
  | [c] => by simp [splitNN]
  | a :: b :: rest => by
    have IH1 := splitNN_lastSeg rest
    have IH2 := splitNN_lastSeg (b :: rest)
    by_cases hnn : a = '\n' ∧ b = '\n'
    · have hR : splitNN (a :: b :: rest) = [] :: splitNN rest := by
        simp [splitNN, hnn]
      rw [hR]
      rcases hrest : splitNN rest with _ | ⟨h₀, t₀⟩
      · exact absurd hrest (splitNN_ne_nil _)
      · rw [hrest] at IH1
        simpa only [List.getLastD_cons] using IH1
    · obtain ⟨h₀, t₀, hsp, hemp, hhead⟩ := splitNN_head b rest
      have hR : splitNN (a :: b :: rest) = (a :: h₀) :: t₀ := by
        simp [splitNN, hnn, hsp]
      rw [hR]
      rw [hsp] at IH2
      rcases t₀ with _ | ⟨s₁, t₁⟩
      · simp only [List.getLastD_cons, List.getLastD_nil] at IH2 ⊢
        rcases h₀ with _ | ⟨z, w⟩
        · simp [splitNN]
        · have hz : ¬ (a = '\n' ∧ z = '\n') := by
            rintro ⟨hx, hzn⟩
            exact hnn ⟨hx, (hhead z w rfl) ▸ hzn⟩
          simp [splitNN, hz, IH2]
      · simpa only [List.getLastD_cons] using IH2

/-! The decoding of one complete segment, from the body of the read loop:
whitespace-only segments are skipped, each line beginning with `"data: "`
contributes its remainder as a payload, and the `"[DONE]"` sentinel payload is
dropped.  (`JSON.parse`/`handleStreamEvent` consume each payload unchanged, so
the event sequence is a function of this payload sequence; a payload that
fails to parse is logged and skipped, again as a function of the payload.) -/

def dataMarker : Str := ("data: ").data

def doneMarker : Str := ("[DONE]").data

/-- Payloads decoded from one `\n\n`-delimited segment. -/
def decodeSeg (msg : Str) : List Str :=
  if jsTrim msg = [] then []
  else
    (splitCh '\n' msg).filterMap (fun line =>
      if startsW dataMarker line then
        let d := line.drop 6
        if d = doneMarker then none else some d
      else none)

/-- One iteration of the read loop (app.js 1072–1079): append the chunk to
the buffer, split on `"\n\n"`, keep the last segment as the new buffer, and
decode every earlier segment in order. -/
def pushChunk (buf chunk : Str) : Str × List Str :=
  let segs := splitNN (buf ++ chunk)
  (segs.getLastD [], (segs.dropLast.map decodeSeg).flatten)

/-- Feed a sequence of chunks through the loop, starting from buffer `buf`;
returns the final buffer and the concatenated decoded payloads. -/
def feedFrom (buf : Str) : List Str → Str × List Str
  | [] => (buf, [])
  | ch :: rest =>
    let p := pushChunk buf ch
    let q := feedFrom p.1 rest
    (q.1, p.2 ++ q.2)

theorem pushChunk_append (buf c₁ c₂ : Str) :
    pushChunk buf (c₁ ++ c₂) =
      ((pushChunk (pushChunk buf c₁).1 c₂).1,
        (pushChunk buf c₁).2 ++ (pushChunk (pushChunk buf c₁).1 c₂).2) := by
  have key := splitNN_append (buf ++ c₁) c₂
  have hassoc : buf ++ c₁ ++ c₂ = buf ++ (c₁ ++ c₂) := by
    rw [List.append_assoc]
  rw [hassoc] at key
  have hne : splitNN ((splitNN (buf ++ c₁)).getLastD [] ++ c₂) ≠ [] :=
    splitNN_ne_nil _
  simp only [pushChunk, Prod.mk.injEq]
  rw [key]
  constructor
  · rw [getLastD_append _ _ _ hne]
  · rw [dropLast_append_ne_nil _ _ hne, List.map_append, List.flatten_append]

theorem feedFrom_eq_pushChunk : ∀ (chunks : List Str) (buf : Str),
    splitNN buf = [buf] → feedFrom buf chunks = pushChunk buf chunks.flatten
  | [], buf, h => by
    simp only [feedFrom, List.flatten_nil, pushChunk, List.append_nil, h]
    rfl
  | c :: cs, buf, h => by
    have hlast : splitNN ((splitNN (buf ++ c)).getLastD []) =
        [(splitNN (buf ++ c)).getLastD []] := splitNN_lastSeg (buf ++ c)
    have IH := feedFrom_eq_pushChunk cs (pushChunk buf c).1 (by
      simpa only [pushChunk] using hlast)
    simp only [feedFrom, List.flatten_cons]
    rw [IH, pushChunk_append]

/-- C1.  Frame reassembly is chunking-invariant: feeding any list of chunks
through the buffer-split-decode loop, starting from an empty buffer, yields
exactly the same final buffer and the same ordered payload sequence as
feeding the whole concatenated text as a single chunk.  (One byte at a time
is the special case `chunks = text.map (fun c => [c])`.) -/
theorem C1_frame_reassembly_chunking_invariant (chunks : List Str) :
    feedFrom [] chunks = feedFrom [] [chunks.flatten] := by
  have h0 : splitNN ([] : Str) = [[]] := by simp [splitNN]
  rw [feedFrom_eq_pushChunk chunks [] h0]
  simp only [feedFrom, List.flatten_cons, List.flatten_nil, List.append_nil]

/-! ## C2 / C3 / C9 — event dispatch and draft accumulation
(`handleStreamEvent`, app.js 1140–1467; `confirmClarification`, app.js
1548–1607)

`streamState` is the per-exchange draft accumulator created by
`sendMessageStream` / `confirmClarification` with all-empty fields;
`state.pendingClarification` is the session-level clarification snapshot.
`handleStreamEvent` is a switch on `event.type`; we model exactly its
mutations of `streamState` and `state.pendingClarification` (all other
branches only touch the DOM or the saved-report store). -/

/-- `x || ''` for an optional string field. -/
def jsOrEmpty (o : Option Str) : Str := o.getD []

/-- `x || null` for an optional string-like field: an empty string is falsy
and collapses to `null`. -/
def jsOrNull (o : Option Str) : Option Str :=
  match o with
  | some s => if s = [] then none else some s
  | none => none

/-- The session snapshot stored by the `clarification` branch
(app.js 1190–1196). -/
structure ClarificationState where
  rewritten_request : Str
  original_intent : Str
  original_request : Str
  messages_context : Option Str
  tool_call_id : Option Str
deriving DecidableEq, Repr

/-- Decoded stream events (`StreamEvent` of the spec).  Payloads not read by
`handleStreamEvent`'s state mutations are omitted; `data` results and the
clarification `messages_context` are opaque payloads forwarded unchanged and
are modelled as strings. -/
inductive Event where
  | agent_event
  | intent (value : Str)
  | clarification (rewritten original_intent original_request
      messages_context tool_call_id : Option Str)
  | report_created (id : Str)
  | status (msg : Str)
  | outline
  | section_start
  | heartbeat
  | section_complete
  | complete
  | thinking_start
  | thinking (content : Str)
  | thinking_end
  | content (content : Str)
  | sql (sql : Str)
  | sql_executing
  | data (data : Str)
  | analysis_start
  | analysis (content : Str)
  | analysis_end
  | error (msg : Str)
  | done
deriving DecidableEq, Repr

/-- The draft accumulator `streamState` (app.js 1022–1030, 1582–1590). -/
structure StreamState where
  thinking : Str
  content : Str
  sql : Option Str
  data : Option Str
  analysis : Str
  isThinking : Bool
  isAnalyzing : Bool
deriving DecidableEq, Repr

/-- The fresh draft `{thinking:'', content:'', sql:null, data:null,
analysis:'', isThinking:false, isAnalyzing:false}`. -/
def freshStream : StreamState :=
  { thinking := [], content := [], sql := none, data := none, analysis := [],
    isThinking := false, isAnalyzing := false }

/-- The fixed placeholder the clarification branch writes into
`streamState.content` (app.js 1220). -/
def waitingMsg : Str := ("[等待用户确认]").data

/-- The state mutations of `handleStreamEvent` (app.js 1140–1467) on the
draft and the pending-clarification snapshot.  Branches absent here mutate
only the DOM, `state.currentReport` or local storage. -/
def handleStreamEvent (ev : Event) (ss : StreamState)
    (pending : Option ClarificationState) :
    StreamState × Option ClarificationState :=
  match ev with
  | .clarification rw oi oreq mc tc =>
    ({ ss with content := waitingMsg },
      some { rewritten_request := jsOrEmpty rw, original_intent := jsOrEmpty oi,
             original_request := jsOrEmpty oreq, messages_context := jsOrNull mc,
             tool_call_id := jsOrNull tc })
  | .thinking_start => ({ ss with isThinking := true }, pending)
  | .thinking s => ({ ss with thinking := ss.thinking ++ s }, pending)
  | .thinking_end => ({ ss with isThinking := false }, pending)
  | .content s => ({ ss with content := ss.content ++ s }, pending)
  | .sql s => ({ ss with sql := some s }, pending)
  | .data d => ({ ss with data := some d }, pending)
  | .analysis_start => ({ ss with isAnalyzing := true }, pending)
  | .analysis s => ({ ss with analysis := ss.analysis ++ s }, pending)
  | .analysis_end => ({ ss with isAnalyzing := false }, pending)
  | _ => (ss, pending)

/-- Apply an ordered event sequence to a draft. -/
def applyEvents : List Event → StreamState → Option ClarificationState →
    StreamState × Option ClarificationState
  | [], ss, pending => (ss, pending)
  | ev :: rest, ss, pending =>
    let p := handleStreamEvent ev ss pending
    applyEvents rest p.1 p.2

/-- The payloads of the `thinking` delta events of a sequence, in order. -/
def thinkingDeltas : List Event → List Str :=
  List.filterMap fun e => match e with | .thinking s => some s | _ => none

/-- The payloads of the `content` delta events of a sequence, in order. -/
def contentDeltas : List Event → List Str :=
  List.filterMap fun e => match e with | .content s => some s | _ => none

/-- The payloads of the `analysis` delta events of a sequence, in order. -/
def analysisDeltas : List Event → List Str :=
  List.filterMap fun e => match e with | .analysis s => some s | _ => none

/-- The payloads of the `sql` events of a sequence, in order. -/
def sqlPayloads : List Event → List Str :=
  List.filterMap fun e => match e with | .sql s => some s | _ => none

/-- The payloads of the `data` events of a sequence, in order. -/
def dataPayloads : List Event → List Str :=
  List.filterMap fun e => match e with | .data s => some s | _ => none

/-- Whether an event is a `clarification` event. -/
def Event.isClar : Event → Bool
  | .clarification _ _ _ _ _ => true
  | _ => false

/-- The last element of `l` (as `some`), or the default `d` when `l` is
empty: the value left by a sequence of whole-value writes. -/
def lastOpt (l : List Str) (d : Option Str) : Option Str :=
  match l with
  | [] => d
  | s :: rest => lastOpt rest (some s)

theorem lastOpt_append_singleton (l : List Str) (d : Option Str) (s : Str) :
    lastOpt (l ++ [s]) d = some s := by
  induction l generalizing d with
  | nil => rfl
  | cons x xs ih => simpa [lastOpt] using ih (some x)

theorem applyEvents_acc (evs : List Event) (ss : StreamState)
    (pending : Option ClarificationState)
    (h : ∀ e ∈ evs, e.isClar = false) :
    (applyEvents evs ss pending).1.thinking = ss.thinking ++ (thinkingDeltas evs).flatten ∧
    (applyEvents evs ss pending).1.content = ss.content ++ (contentDeltas evs).flatten ∧
    (applyEvents evs ss pending).1.analysis = ss.analysis ++ (analysisDeltas evs).flatten ∧
    (applyEvents evs ss pending).1.sql = lastOpt (sqlPayloads evs) ss.sql ∧
    (applyEvents evs ss pending).1.data = lastOpt (dataPayloads evs) ss.data := by
  induction evs generalizing ss pending with
  | nil =>
    simp [applyEvents, thinkingDeltas, contentDeltas, analysisDeltas,
      sqlPayloads, dataPayloads, lastOpt]
  | cons ev rest ih =>
    have hrest : ∀ e ∈ rest, e.isClar = false := fun e he => h e (by simp [he])
    have hev : ev.isClar = false := h ev (by simp)
    cases ev <;>
      simp [applyEvents, handleStreamEvent, thinkingDeltas, contentDeltas,
        analysisDeltas, sqlPayloads, dataPayloads, lastOpt, ih _ _ hrest,
        Event.isClar] at hev ⊢

/-- C2 (amended).  For every ordered event sequence containing no
`clarification` event, applied to a fresh draft: `thinking`, `content` and
`analysis` are the in-order concatenations of the corresponding delta
payloads, `sql` is the payload of the last `sql` event (whole-value set) and
`data` is the payload of the last `data` event (whole-value replace). -/
theorem C2_draft_accumulation (evs : List Event)
    (h : ∀ e ∈ evs, e.isClar = false) :
    (applyEvents evs freshStream none).1.thinking = (thinkingDeltas evs).flatten ∧
    (applyEvents evs freshStream none).1.content = (contentDeltas evs).flatten ∧
    (applyEvents evs freshStream none).1.analysis = (analysisDeltas evs).flatten ∧
    (applyEvents evs freshStream none).1.sql = lastOpt (sqlPayloads evs) none ∧
    (applyEvents evs freshStream none).1.data = lastOpt (dataPayloads evs) none := by
  simpa [freshStream] using applyEvents_acc evs freshStream none h

/-- C2, counterexample to the claim as stated over *every* event sequence:
the `clarification` branch overwrites `content` with a fixed placeholder, so
after `[content "a", clarification]` the draft's `content` is not the
concatenation `"a"` of the content deltas. -/
theorem C2_counterexample :
    (applyEvents [Event.content ("a").data,
        Event.clarification none none none none none] freshStream none).1.content ≠
      (contentDeltas [Event.content ("a").data,
        Event.clarification none none none none none]).flatten := by
  decide

/-- C2 witness: a concrete clarification-free run. -/
theorem C2_draft_accumulation_witness :
    (applyEvents [Event.thinking ("t").data, Event.content ("a").data,
        Event.sql ("s1").data, Event.data ("d1").data, Event.sql ("s2").data,
        Event.data ("d2").data, Event.analysis ("z").data,
        Event.content ("b").data] freshStream none).1.content =
      (contentDeltas [Event.thinking ("t").data, Event.content ("a").data,
        Event.sql ("s1").data, Event.data ("d1").data, Event.sql ("s2").data,
        Event.data ("d2").data, Event.analysis ("z").data,
        Event.content ("b").data]).flatten :=
  (C2_draft_accumulation _ (by decide)).2.1

/-! ### C3 — clarification round trip -/

/-- The outgoing request body built by `confirmClarification`
(app.js 1563–1571). -/
structure RequestBody where
  session_id : Str
  message : Str
  clarification_response : Str
  original_request : Str
  messages_context : Option Str
  tool_call_id : Option Str
  stream : Bool
deriving DecidableEq, Repr

/-- `confirmClarification` (app.js 1548–1607): given the edited textarea
content and the pending snapshot, it returns the follow-up request and the
new pending state (cleared to `null` before the request is sent), or nothing
when there is no pending snapshot or the trimmed content is empty. -/
def confirmClarification (textareaContent : Str) (sessionId : Str)
    (pending : Option ClarificationState) :
    Option (RequestBody × Option ClarificationState) :=
  match pending with
  | none => none
  | some pc =>
    let confirmed := jsTrim textareaContent
    if confirmed = [] then none
    else
      some ({ session_id := sessionId, message := confirmed,
              clarification_response := confirmed,
              original_request := pc.original_request,
              messages_context := pc.messages_context,
              tool_call_id := pc.tool_call_id, stream := true }, none)

/-- C3.  After a `clarification` event is handled and the user confirms with
any non-empty text, the outgoing request carries the snapshotted
`original_request` / `messages_context` / `tool_call_id` of the event
unchanged, and the pending clarification state handed back at send time is
cleared. -/
theorem C3_clarification_round_trip
    (rw oi oreq mc tc : Option Str) (ss : StreamState)
    (pending : Option ClarificationState) (txt sid : Str)
    (htxt : jsTrim txt ≠ []) :
    ∃ req : RequestBody,
      confirmClarification txt sid
          (handleStreamEvent (Event.clarification rw oi oreq mc tc) ss pending).2 =
        some (req, none) ∧
      req.original_request = jsOrEmpty oreq ∧
      req.messages_context = jsOrNull mc ∧
      req.tool_call_id = jsOrNull tc := by
  refine ⟨{ session_id := sid, message := jsTrim txt,
            clarification_response := jsTrim txt,
            original_request := jsOrEmpty oreq,
            messages_context := jsOrNull mc,
            tool_call_id := jsOrNull tc, stream := true }, ?_, rfl, rfl, rfl⟩
  simp [handleStreamEvent, confirmClarification, htxt]

/-- C3 witness at a concrete clarification event and confirmation text. -/
theorem C3_clarification_round_trip_witness :
    jsTrim (" run the report ").data ≠ [] ∧
    ∃ req : RequestBody,
      confirmClarification (" run the report ").data ("sess1").data
          (handleStreamEvent
            (Event.clarification (some ("rewritten").data) (some ("intent").data)
              (some ("orig question").data) (some ("ctx json").data)
              (some ("call_7").data))
            freshStream none).2 =
        some (req, none) ∧
      req.original_request = jsOrEmpty (some ("orig question").data) ∧
      req.messages_context = jsOrNull (some ("ctx json").data) ∧
      req.tool_call_id = jsOrNull (some ("call_7").data) :=
  ⟨by decide,
    C3_clarification_round_trip (some ("rewritten").data) (some ("intent").data)
      (some ("orig question").data) (some ("ctx json").data) (some ("call_7").data)
      freshStream none (" run the report ").data ("sess1").data (by decide)⟩

/-! ### C9 — `error` events are not terminal in the code -/

/-- C9 (amended).  The `error` branch only renders an error box: it leaves
the draft and the pending clarification unchanged, and the read loop keeps
dispatching subsequent events, so processing an `error` followed by any
events equals processing those events alone — `error` is not terminal. -/
theorem C9_error_not_terminal (msg : Str) (evs : List Event)
    (ss : StreamState) (pending : Option ClarificationState) :
    applyEvents (Event.error msg :: evs) ss pending = applyEvents evs ss pending := by
  simp [applyEvents, handleStreamEvent]

/-- C9, counterexample to the claim as stated: a `content` event arriving
after an `error` event still mutates the draft's accumulated fields, so the
state after `[error, content "a"]` differs from the state after `[error]`
alone. -/
theorem C9_counterexample :
    applyEvents [Event.error ("boom").data, Event.content ("a").data]
        freshStream none ≠
      applyEvents [Event.error ("boom").data] freshStream none := by
  decide

/-! ## C4 / C5 — markdown table repair (`fixMarkdownTables`, app.js
2488–2618 = part_001 1639–1769; the two copies are identical)

Regular expressions are modelled by dedicated character-level scanners with
JavaScript `String.replace` semantics: matches are found left to right on the
original string, non-overlapping, and replacements are not rescanned. -/

/-- The string `"|"`. -/
def pipeS : Str := [ '|' ]

/-- The string `"---"` tested by `trimmed.includes('---')`. -/
def dash3 : Str := [ '-', '-', '-' ]

/-- The character class `[-:\s|]` of the separator-row pattern. -/
def sepClass (c : Char) : Bool := c = '-' || c = ':' || jsWs c || c = '|'

/-- `/^\|[-:\s|]+\|$/` — a full-line match is a `|`, at least one class
character, then a final `|`. -/
def sepLine (s : Str) : Bool :=
  decide (3 ≤ s.length) && (s.head? == some '|') && (s.getLast? == some '|') &&
    (s.drop 1).dropLast.all sepClass

/-- `/^\|\s*[^|]+\s*\|$/` — a `|`, a non-empty pipe-free middle, a final `|`
(the `\s*` parts are subsumed by `[^|]+` since whitespace is not a pipe). -/
def loneCell (s : Str) : Bool :=
  decide (3 ≤ s.length) && (s.head? == some '|') && (s.getLast? == some '|') &&
    (s.drop 1).dropLast.all (fun c => !(c = '|'))

/-- The inner `while (j < lines.length)` merge loop of `fixMarkdownTables`:
absorb following lines into the incomplete row until it has `expectedCols`
columns, a separator row is reached, or the input ends.  Returns the merged
row and the unconsumed lines. -/
def mergeCont (expectedCols : Nat) (combined : Str) : List Str → Str × List Str
  | [] => (combined, [])
  | next :: rest =>
    let nextT := jsTrim next
    if nextT = [] then mergeCont expectedCols combined rest
    else if sepLine nextT then (combined, next :: rest)
    else if startsW pipeS nextT then
      let combined' :=
        if endsW pipeS combined then
          jsTrimEnd combined.dropLast ++ ' ' :: jsTrimStart (nextT.drop 1)
        else jsTrimEnd combined ++ ' ' :: jsTrimStart nextT
      if endsW pipeS combined' && ((pipeCount combined' : Int) - 1 == expectedCols) then
        (combined', rest)
      else mergeCont expectedCols combined' rest
    else mergeCont expectedCols (jsTrimEnd combined ++ ' ' :: jsTrimStart nextT) rest

theorem mergeCont_length (ec : Nat) :
    ∀ (c : Str) (ls : List Str), (mergeCont ec c ls).2.length ≤ ls.length
  | _, [] => Nat.le_refl _
  | c, next :: rest => by
    simp only [mergeCont]
    repeat' split
    all_goals first
      | exact Nat.le_succ_of_le (mergeCont_length ec _ rest)
      | simp

/-- The first separator row determines the expected column count
(`expectedCols` scan at the top of `fixMarkdownTables`). -/
def findExpectedCols : List Str → Nat
  | [] => 0
  | l :: rest =>
    let t := jsTrim l
    if sepLine t then pipeCount t - 1 else findExpectedCols rest

/-- The outer `while (i < lines.length)` loop of `fixMarkdownTables`; `acc`
is the `merged` array in reverse order (head = most recently pushed line).
Every iteration consumes at least one input line, so the loop is run on the
fuel `fuel = length of the input` (the fuel never runs out; the out-of-fuel
branch is unreachable and kept only for structural recursion). -/
def fixLoopF (ec : Nat) : Nat → List Str → List Str → List Str
  | 0, acc, _ => acc.reverse
  | _ + 1, acc, [] => acc.reverse
  | f + 1, acc, line :: rest =>
    let trimmed := jsTrim line
    -- a lone `| cell |` fragment is merged into a preceding line that does
    -- not end in `|`
    if loneCell trimmed && acc.isEmpty = false &&
        ((pipeCount trimmed : Int) - 1 == 1) && !(includesSub dash3 trimmed) &&
        !(endsW pipeS (jsTrim (acc.headD []))) && !(jsTrim (acc.headD [])).isEmpty then
      fixLoopF ec f ((jsTrim (acc.headD []) ++ ' ' :: trimmed) :: acc.tail) rest
    else if startsW pipeS trimmed && decide (0 < ec) then
      if sepLine trimmed then fixLoopF ec f (trimmed :: acc) rest
      else if endsW pipeS trimmed && ((pipeCount trimmed : Int) - 1 == ec) then
        fixLoopF ec f (trimmed :: acc) rest
      else
        fixLoopF ec f ((mergeCont ec trimmed rest).1 :: acc) (mergeCont ec trimmed rest).2
    else
      if rest.isEmpty = false && loneCell (jsTrim (rest.headD [])) &&
          !(includesSub dash3 (jsTrim (rest.headD []))) && !(startsW pipeS trimmed) &&
          !(endsW pipeS trimmed) && !trimmed.isEmpty then
        fixLoopF ec f ((trimmed ++ ' ' :: jsTrim (rest.headD [])) :: acc) rest.tail
      else fixLoopF ec f (line :: acc) rest

/-- The outer merge loop run with sufficient fuel. -/
def fixLoop (ec : Nat) (acc : List Str) (ls : List Str) : List Str :=
  fixLoopF ec ls.length acc ls

/-- Generic left-to-right global replace: `m l` returns the length of a
match at the head of `l` together with its replacement; on a match the
scanner emits the replacement and resumes after the matched text, otherwise
it copies one character.  Every step consumes at least one character, so the
scan is run on the fuel `length of the input`. -/
def replaceScanF (m : Str → Option (Nat × Str)) : Nat → Str → Str
  | 0, l => l
  | _ + 1, [] => []
  | f + 1, c :: rest =>
    match m (c :: rest) with
    | some (n, repl) =>
      if n = 0 then c :: replaceScanF m f rest
      else repl ++ replaceScanF m f ((c :: rest).drop n)
    | none => c :: replaceScanF m f rest

/-- The global replace run with sufficient fuel. -/
def replaceScan (m : Str → Option (Nat × Str)) (l : Str) : Str :=
  replaceScanF m l.length l

/-- The sentence-ending punctuation class `[。！？.!?]`. -/
def punct1 (c : Char) : Bool :=
  c = '。' || c = '！' || c = '？' || c = '.' || c = '!' || c = '?'

/-- Matcher for `/([。！？.!?])[ \t]*(\|)/g → '$1\n\n$2'`. -/
def mR1 : Str → Option (Nat × Str)
  | [] => none
  | c :: rest =>
    if punct1 c then
      let sp := rest.takeWhile (fun d => d = ' ' || d = '\t')
      match rest.drop sp.length with
      | '|' :: _ => some (1 + sp.length + 1, [c, '\n', '\n', '|'])
      | _ => none
    else none

/-- The index of the last `'|'` in a string, if any. -/
def lastPipePos : Str → Option Nat
  | [] => none
  | c :: rest =>
    match lastPipePos rest with
    | some m => some (m + 1)
    | none => if c = '|' then some 0 else none

/-- Matcher for `/([^\n|])[ \t]*\n(\|[^\n]+\|)\n(\|[-:\s|]+\|)/g →
'$1\n\n$2\n$3'`.  Group 2 is forced to be the entire next line (its closing
pipe must immediately precede the `\n`); group 3 starts with a pipe and
greedily takes `[-:\s|]` characters (which may span further newlines), with
its closing pipe backtracked to the last pipe of that run. -/
def mR2 : Str → Option (Nat × Str)
  | [] => none
  | c :: rest =>
    if !(c = '\n') && !(c = '|') then
      let sp := rest.takeWhile (fun d => d = ' ' || d = '\t')
      match rest.drop sp.length with
      | '\n' :: l2 =>
        let line2 := l2.takeWhile (fun d => !(d = '\n'))
        if decide (3 ≤ line2.length) && (line2.head? == some '|') &&
            (line2.getLast? == some '|') then
          match l2.drop line2.length with
          | '\n' :: l3 =>
            match l3 with
            | '|' :: l4 =>
              let run := l4.takeWhile sepClass
              match lastPipePos run with
              | some m =>
                if 1 ≤ m then
                  some (1 + sp.length + 1 + line2.length + 1 + 1 + (m + 1),
                    c :: '\n' :: '\n' :: (line2 ++ '\n' :: '|' :: run.take (m + 1)))
                else none
              | none => none
            | _ => none
          | _ => none
        else none
      | _ => none
    else none

/-- Matcher for `/(\|[^\n]+\|)\n([^|\s\n])/g → '$1\n\n$2'`.  Group 1's
closing pipe must immediately precede the `\n`, so it is the final character
of the current line. -/
def mR3 : Str → Option (Nat × Str)
  | '|' :: l1 =>
    let tail1 := l1.takeWhile (fun d => !(d = '\n'))
    if decide (2 ≤ tail1.length) && (tail1.getLast? == some '|') then
      match l1.drop tail1.length with
      | '\n' :: c2 :: _ =>
        if !(c2 = '|') && !(jsWs c2) then
          some (1 + tail1.length + 1 + 1, '|' :: tail1 ++ ['\n', '\n', c2])
        else none
      | _ => none
    else none
  | _ => none

/-- `fixMarkdownTables` (app.js 2488–2618): merge broken table rows, then
force blank lines around tables with the three final regex replacements. -/
def fixMarkdownTables (text : Str) : Str :=
  if text = [] then []
  else
    let lines := splitCh '\n' text
    let ec := findExpectedCols lines
    let merged := fixLoop ec [] lines
    replaceScan mR3 (replaceScan mR2 (replaceScan mR1 (joinCh '\n' merged)))

/-! ### `cleanHtmlAndUrls` (app.js 2623–2667 = part_001 1774–1819)

A chain of 19 global replaces followed by `trim()`, each modelled as a
dedicated scanner with the replace semantics of `replaceScan`.  The `i` flag
of the tag and URL patterns is modelled by ASCII lowercasing. -/

/-- The apostrophe character. -/
def apost : Char := Char.ofNat 39

/-- ASCII lowercasing, for the `i` regex flag. -/
def charLower (c : Char) : Char :=
  if 'A' ≤ c ∧ c ≤ 'Z' then Char.ofNat (c.toNat + 32) else c

/-- Case-insensitive prefix test. -/
def prefixCI (p s : Str) : Bool := (p.map charLower).isPrefixOf (s.map charLower)

/-- Index of the first case-insensitive occurrence of `pat`. -/
def findSubCI (pat : Str) : Str → Option Nat
  | [] => if pat.isEmpty then some 0 else none
  | c :: rest =>
    if prefixCI pat (c :: rest) then some 0
    else (findSubCI pat rest).map (fun n => n + 1)

/-- `/<a\s+[^>]*>[\s\S]*?<\/a>/gi`: an opening `<a`-tag (whitespace then
non-`>` attributes then the first `>`), lazily up to the first `</a>`. -/
def mATagFull : Str → Option (Nat × Str)
  | '<' :: c :: rest =>
    if charLower c = 'a' then
      let ws := rest.takeWhile jsWs
      if ws.isEmpty then none
      else
        let afterWs := rest.drop ws.length
        let inner := afterWs.takeWhile (fun d => !(d = '>'))
        match afterWs.drop inner.length with
        | '>' :: body =>
          match findSubCI (('<') :: ('/') :: ('a') :: ['>']) body with
          | some i => some (2 + ws.length + inner.length + 1 + i + 4, [])
          | none => none
        | _ => none
    else none
  | _ => none

/-- `/<a\s+[^>]*>/gi`: an unterminated opening `<a`-tag. -/
def mATagOpen : Str → Option (Nat × Str)
  | '<' :: c :: rest =>
    if charLower c = 'a' then
      let ws := rest.takeWhile jsWs
      if ws.isEmpty then none
      else
        let afterWs := rest.drop ws.length
        let inner := afterWs.takeWhile (fun d => !(d = '>'))
        match afterWs.drop inner.length with
        | '>' :: _ => some (2 + ws.length + inner.length + 1, [])
        | _ => none
    else none
  | _ => none

/-- `/<\/a>/gi`. -/
def mATagClose : Str → Option (Nat × Str)
  | '<' :: '/' :: c :: '>' :: _ =>
    if charLower c = 'a' then some (4, []) else none
  | _ => none

/-- The tag-name alternatives `strong|b|i|em|u|span|div|p|br|ul|li|ol|h[1-6]`,
in source order. -/
def tagAlts : List Str :=
  [("strong").data, ("b").data, ("i").data, ("em").data, ("u").data,
   ("span").data, ("div").data, ("p").data, ("br").data, ("ul").data,
   ("li").data, ("ol").data, ("h1").data, ("h2").data, ("h3").data,
   ("h4").data, ("h5").data, ("h6").data]

/-- `/<(strong|b|i|em|u|span|div|p|br|ul|li|ol|h[1-6])[^>]*>/gi`: some
alternative must follow the `<`; the match then runs to the first `>`. -/
def mKnownOpen : Str → Option (Nat × Str)
  | '<' :: rest =>
    if tagAlts.any (fun a => prefixCI a rest) then
      let inner := rest.takeWhile (fun d => !(d = '>'))
      match rest.drop inner.length with
      | '>' :: _ => some (1 + inner.length + 1, [])
      | _ => none
    else none
  | _ => none

/-- `/<\/(strong|…|h[1-6])>/gi`: the first alternative (in source order) that
is followed immediately by `>`. -/
def mKnownClose : Str → Option (Nat × Str)
  | '<' :: '/' :: rest =>
    match tagAlts.find? (fun a =>
        prefixCI a rest && ((rest.drop a.length).head? == some '>')) with
    | some a => some (2 + a.length + 1, [])
    | none => none
  | _ => none

/-- `/<[a-zA-Z][^>]*>/g`. -/
def mAnyOpen : Str → Option (Nat × Str)
  | '<' :: c :: rest =>
    if c.isAlpha then
      let inner := rest.takeWhile (fun d => !(d = '>'))
      match rest.drop inner.length with
      | '>' :: _ => some (2 + inner.length + 1, [])
      | _ => none
    else none
  | _ => none

/-- `/<\/[a-zA-Z]+>/g`. -/
def mAnyClose : Str → Option (Nat × Str)
  | '<' :: '/' :: rest =>
    let letters := rest.takeWhile Char.isAlpha
    if letters.isEmpty then none
    else
      match rest.drop letters.length with
      | '>' :: _ => some (2 + letters.length + 1, [])
      | _ => none
  | _ => none

/-- `[^\s<>"'\]]` of the Steam linkfilter pattern. -/
def steamBodyOk (c : Char) : Bool :=
  !(jsWs c) && !(c = '<') && !(c = '>') && !(c = '"') && !(c = apost) && !(c = ']')

/-- `/https?:\/\/steamcommunity\.com\/linkfilter\/\?url=[^\s<>"'\]]+/gi`. -/
def mSteam : Str → Option (Nat × Str) := fun l =>
  let lit1 := ("https://steamcommunity.com/linkfilter/?url=").data
  let lit2 := ("http://steamcommunity.com/linkfilter/?url=").data
  if prefixCI lit1 l then
    let body := (l.drop lit1.length).takeWhile steamBodyOk
    if body.isEmpty then none else some (lit1.length + body.length, [])
  else if prefixCI lit2 l then
    let body := (l.drop lit2.length).takeWhile steamBodyOk
    if body.isEmpty then none else some (lit2.length + body.length, [])
  else none

/-- `[^\s<>)"\]]` of the `file:///` pattern. -/
def fileBodyOk (c : Char) : Bool :=
  !(jsWs c) && !(c = '<') && !(c = '>') && !(c = ')') && !(c = '"') && !(c = ']')

/-- `/file:\/\/\/[^\s<>)"\]]+/gi`. -/
def mFileUrl : Str → Option (Nat × Str) := fun l =>
  let lit := ("file:///").data
  if prefixCI lit l then
    let body := (l.drop lit.length).takeWhile fileBodyOk
    if body.isEmpty then none else some (lit.length + body.length, [])
  else none

/-- `[^\s<>\[\]()'"]` of the plain-URL pattern. -/
def urlBodyOk (c : Char) : Bool :=
  !(jsWs c) && !(c = '<') && !(c = '>') && !(c = '[') && !(c = ']') &&
    !(c = '(') && !(c = ')') && !(c = apost) && !(c = '"')

/-- `/https?:\/\/[^\s<>\[\]()'"]+/g` (case-sensitive). -/
def mUrl : Str → Option (Nat × Str)
  | 'h' :: 't' :: 't' :: 'p' :: rest =>
    let hasS := rest.head? == some 's'
    let rest1 := if hasS then rest.tail else rest
    match rest1 with
    | ':' :: '/' :: '/' :: rest2 =>
      let body := rest2.takeWhile urlBodyOk
      if body.isEmpty then none
      else some (4 + (if hasS then 1 else 0) + 3 + body.length, [])
    | _ => none
  | _ => none

/-- `/\[([^\]]*)\]\([^)]+\)/g → '$1'`: the link text (which may be empty) is
kept, the `(...)` target (non-empty) is dropped. -/
def mMdLink : Str → Option (Nat × Str)
  | '[' :: rest =>
    let t1 := rest.takeWhile (fun d => !(d = ']'))
    match rest.drop t1.length with
    | ']' :: '(' :: rest2 =>
      let t2 := rest2.takeWhile (fun d => !(d = ')'))
      if t2.isEmpty then none
      else
        match rest2.drop t2.length with
        | ')' :: _ => some (1 + t1.length + 2 + t2.length + 1, t1)
        | _ => none
    | _ => none
  | _ => none

/-- `/"(https?:\/\/[^"]+)"/g`. -/
def mDQuotedUrl : Str → Option (Nat × Str)
  | '"' :: 'h' :: 't' :: 't' :: 'p' :: rest =>
    let hasS := rest.head? == some 's'
    let rest1 := if hasS then rest.tail else rest
    match rest1 with
    | ':' :: '/' :: '/' :: rest2 =>
      let body := rest2.takeWhile (fun d => !(d = '"'))
      if body.isEmpty then none
      else
        match rest2.drop body.length with
        | '"' :: _ =>
          some (5 + (if hasS then 1 else 0) + 3 + body.length + 1, [])
        | _ => none
    | _ => none
  | _ => none

/-- `/'(https?:\/\/[^']+)'/g`. -/
def mSQuotedUrl : Str → Option (Nat × Str) := fun l =>
  match l with
  | q :: 'h' :: 't' :: 't' :: 'p' :: rest =>
    if q = apost then
      let hasS := rest.head? == some 's'
      let rest1 := if hasS then rest.tail else rest
      match rest1 with
      | ':' :: '/' :: '/' :: rest2 =>
        let body := rest2.takeWhile (fun d => !(d = apost))
        if body.isEmpty then none
        else
          if (rest2.drop body.length).head? == some apost then
            some (5 + (if hasS then 1 else 0) + 3 + body.length + 1, [])
          else none
      | _ => none
    else none
  | _ => none

/-- `/%22/g`. -/
def mPct22 : Str → Option (Nat × Str)
  | '%' :: '2' :: '2' :: _ => some (3, [])
  | _ => none

/-- `/%27/g`. -/
def mPct27 : Str → Option (Nat × Str)
  | '%' :: '2' :: '7' :: _ => some (3, [])
  | _ => none

/-- `/&[a-zA-Z]+;/g → ' '`. -/
def mEntityName : Str → Option (Nat × Str)
  | '&' :: rest =>
    let letters := rest.takeWhile Char.isAlpha
    if letters.isEmpty then none
    else
      match rest.drop letters.length with
      | ';' :: _ => some (1 + letters.length + 1, [' '])
      | _ => none
  | _ => none

/-- `/&#\d+;/g → ' '`. -/
def mEntityNum : Str → Option (Nat × Str)
  | '&' :: '#' :: rest =>
    let digits := rest.takeWhile Char.isDigit
    if digits.isEmpty then none
    else
      match rest.drop digits.length with
      | ';' :: _ => some (2 + digits.length + 1, [' '])
      | _ => none
  | _ => none

/-- `/[ \t]+/g → ' '`. -/
def mSpaces : Str → Option (Nat × Str)
  | c :: rest =>
    if c = ' ' || c = '\t' then
      some (1 + (rest.takeWhile (fun d => d = ' ' || d = '\t')).length, [' '])
    else none
  | [] => none

/-- `/\n{3,}/g → '\n\n'`. -/
def mNewlines3 : Str → Option (Nat × Str)
  | c :: rest =>
    if c = '\n' then
      let run := rest.takeWhile (fun d => d = '\n')
      if 2 ≤ run.length then some (1 + run.length, ['\n', '\n']) else none
    else none
  | [] => none

/-- `cleanHtmlAndUrls` (app.js 2623–2667): the replace chain in source
order, then `trim()`. -/
def cleanHtmlAndUrls (text : Str) : Str :=
  if text = [] then []
  else
    jsTrim (replaceScan mNewlines3 (replaceScan mSpaces (replaceScan mEntityNum
      (replaceScan mEntityName (replaceScan mPct27 (replaceScan mPct22
      (replaceScan mSQuotedUrl (replaceScan mDQuotedUrl (replaceScan mMdLink
      (replaceScan mUrl (replaceScan mFileUrl (replaceScan mSteam
      (replaceScan mAnyClose (replaceScan mAnyOpen (replaceScan mKnownClose
      (replaceScan mKnownOpen (replaceScan mATagClose (replaceScan mATagOpen
      (replaceScan mATagFull text)))))))))))))))))))

/-- The repair pipeline of `renderMarkdown` (app.js 2669–2677): HTML/URL
sanitization followed by table repair. -/
def repairMarkdown (text : Str) : Str :=
  fixMarkdownTables (cleanHtmlAndUrls text)

/-- The cells of a markdown table row: the non-empty trimmed segments
between pipes. -/
def rowCells (s : Str) : List Str :=
  ((splitCh '|' s).map jsTrim).filter (fun c => !c.isEmpty)

/-- C4.  Table repair on `"A | B |\n|---|---|\n| x "` followed by `"| y |"`:
the broken fragment `| x` is merged with the next line into the single
complete two-cell row `| x | y |`, giving a two-row, two-column table whose
data row has cells `x` and `y` under the header `A | B`. -/
theorem C4_table_repair :
    fixMarkdownTables (("A | B |\n|---|---|\n| x \n| y |").data) =
      ("A | B |\n|---|---|\n| x | y |").data ∧
    splitCh '\n' (fixMarkdownTables (("A | B |\n|---|---|\n| x \n| y |").data)) =
      [("A | B |").data, ("|---|---|").data, ("| x | y |").data] ∧
    rowCells (("| x | y |").data) = [("x").data, ("y").data] ∧
    rowCells (("A | B |").data) = [("A").data, ("B").data] ∧
    (pipeCount (("| x | y |").data) : Int) - 1 = 2 ∧
    sepLine (("|---|---|").data) = true := by
  decide

/-- C5, counterexample: the repair pipeline is not idempotent.  On
`"[ [x](y) ](z)"` the first pass's markdown-link stripping consumes the
inner `[x](y)` link and splices the remaining text into a fresh well-formed
link `[x ](z)`, which only the second pass strips (to `x`), so
`repair (repair x)` differs from `repair x`. -/
theorem C5_counterexample :
    repairMarkdown (repairMarkdown (("[ [x](y) ](z)").data)) ≠
      repairMarkdown (("[ [x](y) ](z)").data) := by
  decide

/-- C5 (amended).  `repair (repair x) = repair x` does not hold for
arbitrary input (see the counterexample: link stripping can expose a new
markdown link to the second pass, and re-merged table rows can change the
expected column count).  The pipeline is idempotent on the spec's own
table-repair example input of §8. -/
theorem C5_repair_idempotent_on_example :
    repairMarkdown (repairMarkdown (("A | B |\n|---|---|\n| x \n| y |").data)) =
      repairMarkdown (("A | B |\n|---|---|\n| x \n| y |").data) := by
  decide

/-! ## C10 / C6 — chart data sorting and bar-chart downsampling
(`sortChartData`, part_001 13–55; `renderBarChart`, part_001 914–1000;
`buildBarOption`, part_001 492–503)

Rows are maps from field names to JavaScript values; `null`, `undefined` and
missing fields behave identically in every operation below (`== null`,
`typeof` checks, `parseFloat`) and are merged into `vNull`.  Numbers are
modelled as rationals.  `Array.prototype.sort` with a comparator `cmp` is
modelled as a stable insertion sort with the relation `cmp a b ≤ 0`; for a
consistent comparator this is the unique stable sort the ECMAScript spec
prescribes.  The host functions `new Date(...)` (timestamp parsing),
`String(number)` formatting and the locale of `localeCompare` are taken as
parameters of the model where noted. -/

/-- A JavaScript cell value. -/
inductive JVal where
  | vNull
  | vNum (q : ℚ)
  | vStr (s : Str)
deriving DecidableEq, Repr

/-- A data row: field name to value. -/
abbrev Row := List (Str × JVal)

/-- `row[field]`; a missing field behaves as `null`. -/
def getField (r : Row) (f : Str) : JVal :=
  match r.find? (fun p => p.1 == f) with
  | some p => p.2
  | none => .vNull

/-- The numeric value of a digit string. -/
def digitsVal (s : Str) : Nat :=
  s.foldl (fun acc c => acc * 10 + (c.toNat - 48)) 0

/-- JavaScript `parseFloat`: skip leading whitespace, optional sign, decimal
digits with optional fraction and exponent; `none` models `NaN` (no digits).
The float value is modelled exactly as a rational; `Infinity` literals are
outside the model and parse as `NaN`. -/
def jsParseFloat (s : Str) : Option ℚ :=
  let t := s.dropWhile jsWs
  let sgn : ℚ := if t.head? = some '-' then -1 else 1
  let t1 := if t.head? = some '-' || t.head? = some '+' then t.tail else t
  let ip := t1.takeWhile Char.isDigit
  let t2 := t1.drop ip.length
  let fp := if t2.head? = some '.' then t2.tail.takeWhile Char.isDigit else []
  let t3 := if t2.head? = some '.' then t2.tail.drop fp.length else t2
  if ip.isEmpty && fp.isEmpty then none
  else
    let base : ℚ := (digitsVal ip : ℚ) + (digitsVal fp : ℚ) / ((10 : ℚ) ^ fp.length)
    let expVal : Int :=
      match t3 with
      | e :: r =>
        if e = 'e' ∨ e = 'E' then
          match r with
          | '-' :: r2 =>
            let ds := r2.takeWhile Char.isDigit
            if ds.isEmpty then 0 else -(digitsVal ds : Int)
          | '+' :: r2 =>
            let ds := r2.takeWhile Char.isDigit
            if ds.isEmpty then 0 else (digitsVal ds : Int)
          | _ =>
            let ds := r.takeWhile Char.isDigit
            if ds.isEmpty then 0 else (digitsVal ds : Int)
        else 0
      | [] => 0
    some (sgn * base * (10 : ℚ) ^ expVal)

/-- `parseFloat(v)` on a cell value (`String(v)` coercion first):
numbers round-trip, `null`/`undefined` stringify to non-numeric text. -/
def parseFloatVal (v : JVal) : Option ℚ :=
  match v with
  | .vNum q => some q
  | .vStr s => jsParseFloat s
  | .vNull => none

/-- `parseFloat(v) || 0`. -/
def pf0 (v : JVal) : ℚ := (parseFloatVal v).getD 0

/-- All characters are decimal digits. -/
def allDigits (s : Str) : Bool := s.all Char.isDigit

/-- A date separator: dash or slash. -/
def dateSep (c : Char) : Bool := c = '-' || c = '/'

/-- The date-likeness test of `sortChartData` (part_001 23–28):
`/^\d{4}[-\/]\d{2}[-\/]\d{2}/` (prefix), `/^\d{4}[-\/]\d{2}$/` or
`/^\d{4}$/` on a string sample. -/
def dateLike (s : Str) : Bool :=
  (match s with
   | a :: b :: c :: d :: s1 :: e :: f :: s2 :: g :: h :: _ =>
     allDigits [a, b, c, d] && dateSep s1 && allDigits [e, f] && dateSep s2 &&
       allDigits [g, h]
   | _ => false) ||
  (match s with
   | [a, b, c, d, s1, e, f] => allDigits [a, b, c, d] && dateSep s1 && allDigits [e, f]
   | _ => false) ||
  (match s with
   | [a, b, c, d] => allDigits [a, b, c, d]
   | _ => false)

/-- The comparison mode chosen by `sortChartData` from the sample value. -/
inductive CmpMode where
  | dateMode
  | numMode
  | strMode
deriving DecidableEq, Repr

/-- Mode detection (part_001 20–31): a date-like string sample sorts as
dates; a number, or a string that `parseFloat`s, sorts numerically;
everything else lexicographically. -/
def detectMode (sample : JVal) : CmpMode :=
  match sample with
  | .vStr s =>
    if dateLike s then .dateMode
    else if (jsParseFloat s).isSome then .numMode
    else .strMode
  | .vNum _ => .numMode
  | .vNull => .strMode

/-- `String(valA).replace(/\//g, '-')`. -/
def slashToDash (s : Str) : Str := s.map (fun c => if c = '/' then '-' else c)

/-- `localeCompare`, modelled as code-point lexicographic comparison (the
actual collation is a host/locale function; only its sign is consumed). -/
def lexCompare : Str → Str → Int
  | [], [] => 0
  | [], _ :: _ => -1
  | _ :: _, [] => 1
  | a :: as_, b :: bs =>
    if a.toNat < b.toNat then -1
    else if b.toNat < a.toNat then 1
    else lexCompare as_ bs

section SortChart

-- Host `new Date(text).getTime()`: `none` models an invalid date (`NaN`
-- timestamp).
variable (dateParse : Str → Option ℚ)

-- Host `String(number)` formatting.
variable (numToStr : ℚ → Str)

/-- `String(v)` for the values reaching the date/string comparisons. -/
def jsToString (v : JVal) : Str :=
  match v with
  | .vStr s => s
  | .vNum q => numToStr q
  | .vNull => ("null").data

/-- The comparator body of `sortChartData` (part_001 33–51): `null`
(or missing) x-values sort after everything, then the mode-specific
comparison; `none` models a `NaN` comparator result. -/
def jsCompare (mode : CmpMode) (xField : Str) (a b : Row) : Option ℚ :=
  let valA := getField a xField
  let valB := getField b xField
  if valA = .vNull then some 1
  else if valB = .vNull then some (-1)
  else
    match mode with
    | .dateMode =>
      match dateParse (slashToDash (jsToString numToStr valA)),
          dateParse (slashToDash (jsToString numToStr valB)) with
      | some ta, some tb => some (ta - tb)
      | _, _ => none
    | .numMode =>
      match parseFloatVal valA, parseFloatVal valB with
      | some qa, some qb => some (qa - qb)
      | _, _ => none
    | .strMode => some ((lexCompare (jsToString numToStr valA) (jsToString numToStr valB) : Int) : ℚ)

/-- `cmp a b ≤ 0`: `a` may stay before `b` under the comparator (a `NaN`
result is not `≤ 0`). -/
def cmpLE (mode : CmpMode) (xField : Str) (a b : Row) : Bool :=
  match jsCompare dateParse numToStr mode xField a b with
  | some q => decide (q ≤ 0)
  | none => false

/-- The comparison mode used by `sortChartData`: detected from the first
row's x-value only (`sorted[0][xField]`, part_001 20). -/
def sortModeOf (data : List Row) (xField : Str) : CmpMode :=
  detectMode (getField (data.headD []) xField)

/-- `sortChartData` (part_001 13–55): guard on empty data or falsy field,
detect the mode from the first row's x-value, then stable-sort by the
comparator. -/
def sortChartData (data : List Row) (xField : Str) : List Row :=
  if data.isEmpty || xField.isEmpty then data
  else
    List.insertionSort
      (fun a b => cmpLE dateParse numToStr (sortModeOf data xField) xField a b = true) data

/-- A row with a `null` (or missing) x-value never stays in front: the
comparator returns `1`. -/
theorem cmpLE_null_left (mode : CmpMode) (x : Str) (a b : Row)
    (h : getField a x = JVal.vNull) :
    cmpLE dateParse numToStr mode x a b = false := by
  simp [cmpLE, jsCompare, h]

/-- A non-`null` row always precedes a `null` row: the comparator returns
`-1`. -/
theorem cmpLE_null_right (mode : CmpMode) (x : Str) (a b : Row)
    (h1 : ¬ getField a x = JVal.vNull) (h2 : getField b x = JVal.vNull) :
    cmpLE dateParse numToStr mode x a b = true := by
  simp [cmpLE, jsCompare, h1, h2]

end SortChart

/-- All rows of `l` have a `null` x-value. -/
def allNullX (x : Str) (l : List Row) : Prop :=
  ∀ r ∈ l, getField r x = JVal.vNull

/-- No `null`-x row occurs before a non-`null`-x row. -/
def NL (x : Str) : List Row → Prop
  | [] => True
  | r :: rest => (getField r x = JVal.vNull → allNullX x rest) ∧ NL x rest

theorem NL_append_null (x : Str) (a : Row) (ha : getField a x = JVal.vNull) :
    ∀ l : List Row, NL x l → NL x (l ++ [a])
  | [], _ => ⟨fun _ r hr => by simp at hr, trivial⟩
  | y :: rest, ⟨hy, hrest⟩ => by
    refine ⟨fun hynull r hr => ?_, NL_append_null x a ha rest hrest⟩
    have hr2 : r ∈ rest ∨ r = a := by simpa using hr
    rcases hr2 with hmem | hmem
    · exact hy hynull r hmem
    · rw [hmem]
      exact ha

theorem orderedInsert_end {α : Type} (R : α → α → Prop) [DecidableRel R] (a : α) :
    ∀ l : List α, (∀ y ∈ l, ¬ R a y) → l.orderedInsert R a = l ++ [a]
  | [], _ => rfl
  | y :: rest, h => by
    have hy : ¬ R a y := h y (by simp)
    simp only [List.orderedInsert, if_neg hy]
    rw [orderedInsert_end R a rest (fun z hz => h z (by simp [hz]))]
    rfl

section SortChart

variable (dateParse : Str → Option ℚ)
variable (numToStr : ℚ → Str)

theorem NL_orderedInsert (mode : CmpMode) (x : Str) (a : Row) :
    ∀ l : List Row, NL x l →
      NL x (l.orderedInsert
        (fun p q => cmpLE dateParse numToStr mode x p q = true) a) := by
  intro l hl
  by_cases ha : getField a x = JVal.vNull
  · rw [orderedInsert_end _ a l (fun y _ => by
      simp [cmpLE_null_left dateParse numToStr mode x a y ha])]
    exact NL_append_null x a ha l hl
  · induction l with
    | nil => exact ⟨fun h => absurd h ha, trivial⟩
    | cons y rest ih =>
      obtain ⟨hy, hrest⟩ := hl
      by_cases hR : cmpLE dateParse numToStr mode x a y = true
      · simp only [List.orderedInsert, if_pos hR]
        exact ⟨fun h => absurd h ha, hy, hrest⟩
      · simp only [List.orderedInsert, if_neg hR]
        refine ⟨fun hynull => ?_, ih hrest⟩
        exact absurd (cmpLE_null_right dateParse numToStr mode x a y ha hynull) hR

theorem NL_insertionSort (mode : CmpMode) (x : Str) :
    ∀ l : List Row,
      NL x (l.insertionSort (fun p q => cmpLE dateParse numToStr mode x p q = true))
  | [] => trivial
  | a :: l => by
    simp only [List.insertionSort]
    exact NL_orderedInsert dateParse numToStr mode x a _
      (NL_insertionSort mode x l)

end SortChart

theorem NL_decomp (x : Str) :
    ∀ l : List Row, NL x l →
      ∃ A B, l = A ++ B ∧ (∀ r ∈ A, ¬ getField r x = JVal.vNull) ∧
        (∀ r ∈ B, getField r x = JVal.vNull)
  | [], _ => ⟨[], [], rfl, by simp, by simp⟩
  | y :: rest, ⟨hy, hrest⟩ => by
    by_cases hynull : getField y x = JVal.vNull
    · refine ⟨[], y :: rest, rfl, by simp, fun r hr => ?_⟩
      rcases List.mem_cons.1 hr with h | h
      · rw [h]; exact hynull
      · exact hy hynull r h
    · obtain ⟨A, B, hAB, hA, hB⟩ := NL_decomp x rest hrest
      exact ⟨y :: A, B, by rw [hAB]; rfl,
        fun r hr => by
          rcases List.mem_cons.1 hr with h | h
          · rw [h]; exact hynull
          · exact hA r h,
        hB⟩

/-- C10.  For every data set and non-empty x-field name, `sortChartData`
(1) returns a permutation of its input — no row is removed; (2) orders every
row whose x-value is `null` (or missing) after all rows with a non-`null`
x-value; and (3) chooses the comparison mode (date, numeric or
lexicographic) solely from the first row's x-value.  Quantified over the
host date parser and number formatter consumed by the comparator. -/
theorem C10_sortChartData (dateParse : Str → Option ℚ) (numToStr : ℚ → Str)
    (data : List Row) (xField : Str) (hx : xField ≠ []) :
    (sortChartData dateParse numToStr data xField).Perm data ∧
    (∃ A B, sortChartData dateParse numToStr data xField = A ++ B ∧
      (∀ r ∈ A, ¬ getField r xField = JVal.vNull) ∧
      (∀ r ∈ B, getField r xField = JVal.vNull)) ∧
    (∀ (r : Row) (rest rest' : List Row),
      sortModeOf (r :: rest) xField = sortModeOf (r :: rest') xField) := by
  have hxe : xField.isEmpty = false := by
    cases xField with
    | nil => exact absurd rfl hx
    | cons c cs => rfl
  refine ⟨?_, ?_, fun r rest rest' => rfl⟩
  · by_cases hd : data.isEmpty
    · simp [sortChartData, hd]
    · simp only [sortChartData, hd, hxe, Bool.or_self, if_false]
      exact List.perm_insertionSort _ data
  · by_cases hd : data.isEmpty
    · have : data = [] := by
        cases data with
        | nil => rfl
        | cons a l => simp at hd
      refine ⟨[], [], by simp [sortChartData, hd, this], by simp, by simp⟩
    · have hres : sortChartData dateParse numToStr data xField =
        data.insertionSort (fun p q =>
          cmpLE dateParse numToStr (sortModeOf data xField) xField p q = true) := by
        simp [sortChartData, hd, hxe]
      rw [hres]
      exact NL_decomp xField _
        (NL_insertionSort dateParse numToStr (sortModeOf data xField) xField data)

/-- C10 witness: a concrete data set with a `null` x-row first; the
hypothesis `xField ≠ []` is discharged at `"m"`, instantiating the host
functions trivially. -/
theorem C10_sortChartData_witness :
    (sortChartData (fun _ => none) (fun _ => []) [[(("m").data, JVal.vNull)],
        [(("m").data, JVal.vNum 2)]] (("m").data)).Perm
      [[(("m").data, JVal.vNull)], [(("m").data, JVal.vNum 2)]] ∧
    (∃ A B, sortChartData (fun _ => none) (fun _ => [])
        [[(("m").data, JVal.vNull)], [(("m").data, JVal.vNum 2)]] (("m").data) = A ++ B ∧
      (∀ r ∈ A, ¬ getField r (("m").data) = JVal.vNull) ∧
      (∀ r ∈ B, getField r (("m").data) = JVal.vNull)) ∧
    (∀ (r : Row) (rest rest' : List Row),
      sortModeOf (r :: rest) (("m").data) = sortModeOf (r :: rest') (("m").data)) :=
  C10_sortChartData (fun _ => none) (fun _ => []) _ _ (by decide)

/-! ### C6 — bar chart display-row downsampling -/

/-- `CHART_CONFIG.maxBarItems` (part_001 858). -/
def maxBarItems : Nat := 20

/-- The descending-by-first-y-field precedence used by the top-N sort
comparator `(parseFloat(b[y0]) || 0) - (parseFloat(a[y0]) || 0)`:
`a` may precede `b` iff `b`'s value is at most `a`'s. -/
def descBy (y0 : Str) (a b : Row) : Prop :=
  pf0 (getField b y0) ≤ pf0 (getField a y0)

instance (y0 : Str) : DecidableRel (descBy y0) := fun _ _ =>
  inferInstanceAs (Decidable (_ ≤ _))

instance (y0 : Str) : IsTotal Row (descBy y0) :=
  ⟨fun a b => le_total (pf0 (getField b y0)) (pf0 (getField a y0))⟩

instance (y0 : Str) : IsTrans Row (descBy y0) :=
  ⟨fun _ _ _ h1 h2 => le_trans h2 h1⟩

/-- `yFields[0]`: an empty `yFields` makes JavaScript look up the property
named `"undefined"`. -/
def firstY (yFields : List Str) : Str := yFields.headD (("undefined").data)

/-- The display rows of `renderBarChart` (part_001 957–968): sort by the
x-field, then keep only the top `maxBarItems` rows by first y-field value
(descending) when there are more than `maxBarItems` rows. -/
def renderBarChartDisplay (dateParse : Str → Option ℚ) (numToStr : ℚ → Str)
    (data : List Row) (xField : Str) (yFields : List Str) : List Row :=
  if decide (maxBarItems < (sortChartData dateParse numToStr data xField).length) &&
      !yFields.isEmpty then
    ((sortChartData dateParse numToStr data xField).insertionSort
      (descBy (firstY yFields))).take maxBarItems
  else sortChartData dateParse numToStr data xField

/-- The `validData` filter of `buildBarOption` (part_001 496):
`d[xField] != null && d[xField] !== '' && d[xField] !== 'undefined'`. -/
def validRows (data : List Row) (xField : Str) : List Row :=
  data.filter (fun d =>
    !(getField d xField == JVal.vNull) && !(getField d xField == JVal.vStr []) &&
      !(getField d xField == JVal.vStr (("undefined").data)))

/-- The display rows of `buildBarOption` (part_001 496–503): filter invalid
x-values, sort by the x-field, and keep the top 20 by first y-field value
only when there are more than 25 rows. -/
def buildBarOptionDisplay (dateParse : Str → Option ℚ) (numToStr : ℚ → Str)
    (data : List Row) (xField : Str) (yFields : List Str) : List Row :=
  if decide (25 < (sortChartData dateParse numToStr (validRows data xField) xField).length) then
    ((sortChartData dateParse numToStr (validRows data xField) xField).insertionSort
      (descBy (firstY yFields))).take 20
  else sortChartData dateParse numToStr (validRows data xField) xField

theorem length_sortChartData (dateParse : Str → Option ℚ) (numToStr : ℚ → Str)
    (data : List Row) (x : Str) :
    (sortChartData dateParse numToStr data x).length = data.length := by
  unfold sortChartData
  split
  · rfl
  · exact List.length_insertionSort _ data

/-- C6, counterexample to the claim as stated: 21 input rows exceed the
display cap of 20, yet `buildBarOption` (which downsamples only above 25
rows) returns all 21 rows. -/
theorem C6_counterexample :
    20 < (List.replicate 21
        [(("x").data, JVal.vStr ("a").data), (("v").data, JVal.vNum 1)]).length ∧
    (buildBarOptionDisplay (fun _ => none) (fun _ => [])
        (List.replicate 21
          [(("x").data, JVal.vStr ("a").data), (("v").data, JVal.vNum 1)])
        (("x").data) [("v").data]).length = 21 := by
  constructor
  · decide
  · decide

/-- C6 (amended).  `renderBarChart` caps its displayed rows at 20 whenever
the input exceeds 20 rows (given a non-empty y-field list), returning
exactly the first 20 of a descending sort by first y-field value;
`buildBarOption` applies the same top-20 selection but only when the valid
rows exceed 25.  In particular 1,000 input rows resolve to exactly 20
displayed rows on both paths. -/
theorem C6_bar_downsampling (dateParse : Str → Option ℚ) (numToStr : ℚ → Str)
    (data : List Row) (xField : Str) (yFields : List Str) :
    (yFields ≠ [] → maxBarItems < data.length →
      (renderBarChartDisplay dateParse numToStr data xField yFields).length = maxBarItems ∧
      ∃ sorted : List Row,
        sorted.Perm (sortChartData dateParse numToStr data xField) ∧
        List.Sorted (descBy (firstY yFields)) sorted ∧
        renderBarChartDisplay dateParse numToStr data xField yFields =
          sorted.take maxBarItems) ∧
    (25 < (validRows data xField).length →
      (buildBarOptionDisplay dateParse numToStr data xField yFields).length = 20 ∧
      ∃ sorted : List Row,
        sorted.Perm (sortChartData dateParse numToStr (validRows data xField) xField) ∧
        List.Sorted (descBy (firstY yFields)) sorted ∧
        buildBarOptionDisplay dateParse numToStr data xField yFields =
          sorted.take 20) := by
  constructor
  · intro hy hlen
    have hslen : (sortChartData dateParse numToStr data xField).length = data.length :=
      length_sortChartData dateParse numToStr data xField
    have hye : yFields.isEmpty = false := by
      cases yFields with
      | nil => exact absurd rfl hy
      | cons a l => rfl
    have hcond : (decide (maxBarItems <
        (sortChartData dateParse numToStr data xField).length) &&
        !yFields.isEmpty) = true := by
      rw [hslen, hye]
      simpa using hlen
    have hred : renderBarChartDisplay dateParse numToStr data xField yFields =
        ((sortChartData dateParse numToStr data xField).insertionSort
          (descBy (firstY yFields))).take maxBarItems := by
      unfold renderBarChartDisplay
      rw [hcond]
      simp
    refine ⟨?_, ⟨(sortChartData dateParse numToStr data xField).insertionSort
      (descBy (firstY yFields)), List.perm_insertionSort _ _,
      List.sorted_insertionSort _ _, hred⟩⟩
    rw [hred]
    simp only [List.length_take, List.length_insertionSort, hslen]
    omega
  · intro hlen
    have hslen : (sortChartData dateParse numToStr (validRows data xField) xField).length =
        (validRows data xField).length :=
      length_sortChartData dateParse numToStr (validRows data xField) xField
    have hcond : decide (25 <
        (sortChartData dateParse numToStr (validRows data xField) xField).length) = true := by
      rw [hslen]
      simpa using hlen
    have hred : buildBarOptionDisplay dateParse numToStr data xField yFields =
        ((sortChartData dateParse numToStr (validRows data xField) xField).insertionSort
          (descBy (firstY yFields))).take 20 := by
      unfold buildBarOptionDisplay
      rw [hcond]
      simp
    refine ⟨?_, ⟨(sortChartData dateParse numToStr (validRows data xField) xField).insertionSort
      (descBy (firstY yFields)), List.perm_insertionSort _ _,
      List.sorted_insertionSort _ _, hred⟩⟩
    rw [hred]
    simp only [List.length_take, List.length_insertionSort, hslen]
    omega

/-- C6 witness: 1,000 input rows resolve to exactly 20 displayed rows on
both bar-chart paths. -/
theorem C6_bar_downsampling_witness :
    ((renderBarChartDisplay (fun _ => none) (fun _ => [])
        (List.replicate 1000 [(("x").data, JVal.vStr ("a").data), (("v").data, JVal.vNum 1)])
        (("x").data) [("v").data]).length = maxBarItems ∧
      ∃ sorted : List Row,
        sorted.Perm (sortChartData (fun _ => none) (fun _ => [])
          (List.replicate 1000 [(("x").data, JVal.vStr ("a").data), (("v").data, JVal.vNum 1)])
          (("x").data)) ∧
        List.Sorted (descBy (firstY [("v").data])) sorted ∧
        renderBarChartDisplay (fun _ => none) (fun _ => [])
          (List.replicate 1000 [(("x").data, JVal.vStr ("a").data), (("v").data, JVal.vNum 1)])
          (("x").data) [("v").data] = sorted.take maxBarItems) ∧
    ((buildBarOptionDisplay (fun _ => none) (fun _ => [])
        (List.replicate 1000 [(("x").data, JVal.vStr ("a").data), (("v").data, JVal.vNum 1)])
        (("x").data) [("v").data]).length = 20 ∧
      ∃ sorted : List Row,
        sorted.Perm (sortChartData (fun _ => none) (fun _ => [])
          (validRows (List.replicate 1000
            [(("x").data, JVal.vStr ("a").data), (("v").data, JVal.vNum 1)]) (("x").data))
          (("x").data)) ∧
        List.Sorted (descBy (firstY [("v").data])) sorted ∧
        buildBarOptionDisplay (fun _ => none) (fun _ => [])
          (List.replicate 1000 [(("x").data, JVal.vStr ("a").data), (("v").data, JVal.vNum 1)])
          (("x").data) [("v").data] = sorted.take 20) := by
  have hfilter : validRows (List.replicate 1000
      [(("x").data, JVal.vStr ("a").data), (("v").data, JVal.vNum 1)]) (("x").data) =
      List.replicate 1000 [(("x").data, JVal.vStr ("a").data), (("v").data, JVal.vNum 1)] :=
    List.filter_eq_self.2 (fun a ha => by rw [List.eq_of_mem_replicate ha]; decide)
  exact ⟨(C6_bar_downsampling (fun _ => none) (fun _ => []) _ _ _).1
      (by decide) (by rw [List.length_replicate]; decide),
    (C6_bar_downsampling (fun _ => none) (fun _ => []) _ _ _).2
      (by rw [hfilter, List.length_replicate]; decide)⟩

/-! ### C7 — y-axis tick computation (`calculateYTicks`, part_001 1597–1617)

`Math` floating-point arithmetic is modelled exactly over the rationals:
`Math.floor(Math.log10(roughStep))` is `Int.log 10 roughStep` (for positive
steps) and `Math.round` is `⌊x + 1/2⌋`.  For the claim's input `(0, 93, 5)`
every quantity involved (`23.25`, `2.325`, `20`, the products `i·20·100` and
quotients by `100`) is exactly representable in binary64, so the rational
model coincides with the JavaScript evaluation. -/

/-- `Math.round`. -/
def jsRound (x : ℚ) : ℤ := ⌊x + 1 / 2⌋

/-- Fueled integer base-10 logarithm on naturals. -/
def natLog10F : Nat → Nat → Nat
  | 0, _ => 0
  | f + 1, n => if n < 10 then 0 else 1 + natLog10F f (n / 10)

/-- `⌊log10 n⌋` for `n ≥ 1`. -/
def natLog10 (n : Nat) : Nat := natLog10F n n

/-- Fueled exponent search for `0 < q < 1`: the least `n ≥ 1` with
`q·10^n ≥ 1`. -/
def negExpF : Nat → ℚ → Nat
  | 0, _ => 0
  | f + 1, q => if 1 ≤ q then 0 else 1 + negExpF f (q * 10)

/-- `Math.floor(Math.log10 q)` for a positive rational `q`, computed
structurally: for `q ≥ 1` it is the base-10 length of `⌊q⌋`, and for
`0 < q < 1` it is minus the least `n` with `q·10^n ≥ 1`.  Non-positive
arguments (where `Math.log10` returns `NaN`/`-Infinity`) are outside the
model. -/
def floorLog10 (q : ℚ) : ℤ :=
  if 1 ≤ q then (natLog10 ⌊q⌋.toNat : ℤ)
  else -(negExpF q.den.succ (q * 10) + 1 : ℤ)

/-- The "nice" step chosen by `calculateYTicks`: round `range/(count-1)` to
1, 2, 5 or 10 times its decade. -/
def niceStepOf (min max : ℚ) (count : Nat) : ℚ :=
  let range := max - min
  let roughStep := range / ((count : ℚ) - 1)
  let magnitude := (10 : ℚ) ^ floorLog10 roughStep
  let residual := roughStep / magnitude
  if residual ≤ 3 / 2 then 1 * magnitude
  else if residual ≤ 3 then 2 * magnitude
  else if residual ≤ 7 then 5 * magnitude
  else 10 * magnitude

/-- `calculateYTicks` (part_001 1597–1617): `count` ticks at consecutive
multiples of the nice step, rounded to two decimals. -/
def calculateYTicks (min max : ℚ) (count : Nat) : List ℚ :=
  (List.range count).map (fun i =>
    ((jsRound ((i : ℚ) * niceStepOf min max count * 100) : ℚ)) / 100)

/-- C7.  For the input `(0, 93, 5)` the chosen step is `20 = 2·10¹` — a
member of the nice set `{1,2,5}·10^k`, never the raw step `18.6` — and the
function emits exactly `count = 5` ticks at consecutive multiples of that
step starting from 0. -/
theorem C7_ticks_nice :
    niceStepOf 0 93 5 = 20 ∧
    (∃ (m : ℚ) (k : ℤ), (m = 1 ∨ m = 2 ∨ m = 5) ∧ niceStepOf 0 93 5 = m * 10 ^ k) ∧
    calculateYTicks 0 93 5 = [0, 20, 40, 60, 80] ∧
    (calculateYTicks 0 93 5).length = 5 ∧
    calculateYTicks 0 93 5 = (List.range 5).map (fun i => (i : ℚ) * niceStepOf 0 93 5) := by
  have harg : ((93 : ℚ) - 0) / (((5 : ℕ) : ℚ) - 1) = 93 / 4 := by push_cast; norm_num
  have hlog : floorLog10 ((93 : ℚ) / 4) = 1 := by
    unfold floorLog10
    rw [if_pos (by norm_num)]
    rw [show ⌊(93 : ℚ) / 4⌋ = 23 from by norm_num]
    rfl
  have hstep : niceStepOf 0 93 5 = 20 := by
    simp only [niceStepOf]
    rw [harg, hlog]
    rw [show ((10 : ℚ) ^ (1 : ℤ)) = 10 from by norm_num]
    rw [if_neg (by norm_num), if_pos (by norm_num)]
    norm_num
  have hticks : calculateYTicks 0 93 5 = [0, 20, 40, 60, 80] := by
    unfold calculateYTicks
    rw [hstep]
    rw [show List.range 5 = [0, 1, 2, 3, 4] from rfl]
    simp only [List.map]
    norm_num [jsRound]
  refine ⟨hstep, ⟨2, 1, Or.inr (Or.inl rfl), by rw [hstep]; norm_num⟩, hticks,
    by rw [hticks]; rfl, ?_⟩
  rw [hticks, hstep]
  rw [show List.range 5 = [0, 1, 2, 3, 4] from rfl]
  simp only [List.map]
  norm_num

/-! ## C8 — discovery rendering and chart placeholders
(`renderDiscovery`, part_001 243–292; `renderChartContainer`, part_001
325–333; `renderMarkdown`, part_001 1820–1852; `escapeHtml`, part_001
2095–2100)

`renderMarkdown` here is modelled by its in-source fallback branch (clean,
table repair, then the `**`/`*`/backtick/`<br>` replacements); the `marked`
library used when loaded is an external collaborator absent from `src/`.
`encodeChartData` is `btoa(unescape(encodeURIComponent(JSON.stringify(c))))`
— a composition of host built-ins — and is modelled by the chart's opaque
`encoded` string. -/

/-- `escapeHtml` (part_001 2095–2100): the DOM `textContent → innerHTML`
round trip escapes `&`, `<` and `>` (not quotes). -/
def escapeHtml (s : Str) : Str :=
  (s.map (fun c =>
    if c = '&' then ("&amp;").data
    else if c = '<' then ("&lt;").data
    else if c = '>' then ("&gt;").data
    else [c])).flatten

/-- Decimal rendering of a template-literal `${n}` interpolation. -/
def natToStr (n : Nat) : Str := Nat.toDigits 10 n

/-- `s.replace(pat, repl)` with a string pattern: replace the first
occurrence only; an absent pattern leaves the string unchanged. -/
def replaceFirst (pat repl : Str) : Str → Str
  | [] => if pat.isEmpty then repl else []
  | c :: rest =>
    if pat.isPrefixOf (c :: rest) then repl ++ (c :: rest).drop pat.length
    else c :: replaceFirst pat repl rest

/-- The backtick character. -/
def btick : Char := Char.ofNat 96

/-- First index at which a doubled `ch ch` occurs, scanning only across
non-newline characters (the lazy `(.*?)` of `/\*\*(.*?)\*\*/` cannot cross a
newline). -/
def findDouble (ch : Char) : Str → Option Nat
  | a :: b :: rest =>
    if a = ch ∧ b = ch then some 0
    else if a = '\n' then none
    else (findDouble ch (b :: rest)).map (fun n => n + 1)
  | _ => none

/-- First index of `ch` across non-newline characters. -/
def findSingle (ch : Char) : Str → Option Nat
  | a :: rest =>
    if a = ch then some 0
    else if a = '\n' then none
    else (findSingle ch rest).map (fun n => n + 1)
  | [] => none

/-- `/\*\*(.*?)\*\*/g → '<strong>$1</strong>'`. -/
def mBold : Str → Option (Nat × Str)
  | a :: b :: rest =>
    if a = '*' ∧ b = '*' then
      match findDouble '*' rest with
      | some i => some (2 + i + 2, ("<strong>").data ++ rest.take i ++ ("</strong>").data)
      | none => none
    else none
  | _ => none

/-- `/\*(.*?)\*/g → '<em>$1</em>'`. -/
def mItalic : Str → Option (Nat × Str)
  | a :: rest =>
    if a = '*' then
      match findSingle '*' rest with
      | some i => some (1 + i + 1, ("<em>").data ++ rest.take i ++ ("</em>").data)
      | none => none
    else none
  | [] => none

/-- The backtick code-span replacement, `'<code>$1</code>'`. -/
def mCode : Str → Option (Nat × Str)
  | a :: rest =>
    if a = btick then
      match findSingle btick rest with
      | some i => some (1 + i + 1, ("<code>").data ++ rest.take i ++ ("</code>").data)
      | none => none
    else none
  | [] => none

/-- `/\n/g → '<br>'`. -/
def mBr : Str → Option (Nat × Str)
  | '\n' :: _ => some (1, ("<br>").data)
  | _ => none

/-- `renderMarkdown` of the report page (part_001 1820–1852), in-source
fallback branch: sanitize, repair tables, then the simple markdown
replacements. -/
def renderMarkdownR (text : Str) : Str :=
  if text = [] then []
  else
    replaceScan mBr (replaceScan mCode (replaceScan mItalic (replaceScan mBold
      (fixMarkdownTables (cleanHtmlAndUrls text)))))

/-- `a || b` for an optional string against a string default. -/
def jsOrS (a : Option Str) (b : Str) : Str :=
  match a with
  | some s => if s.isEmpty then b else s
  | none => b

/-- A chart of a discovery.  `encoded` is the opaque
`encodeChartData(chart)` base64 payload (host built-ins). -/
structure Chart where
  chart_id : Option Str
  title : Option Str
  encoded : Str
deriving DecidableEq, Repr

/-- A discovery (`insight`/`content` are alternative field names). -/
structure Discovery where
  title : Option Str
  insight : Option Str
  content : Option Str
  charts : List Chart
  data_interpretation : Option Str
deriving DecidableEq, Repr

/-- The container id `chart-${index}-${cIndex}`. -/
def containerId (index cIndex : Nat) : Str :=
  ("chart-").data ++ natToStr index ++ '-' :: natToStr cIndex

/-- The placeholder token of chart `c` at position `cIndex`. -/
def placeholderOf (c : Chart) (index cIndex : Nat) : Str :=
  ("\x7b\x7bCHART:").data ++ jsOrS c.chart_id (containerId index cIndex) ++
    ("\x7d\x7d").data

/-- `renderChartContainer` (part_001 325–333). -/
def renderChartContainer (c : Chart) (chartId : Str) : Str :=
  ("\n        <div class=\"chart-container\">\n            <h4 class=\"chart-title\">").data
    ++ escapeHtml (jsOrS c.title (("图表").data))
    ++ ("</h4>\n            <div class=\"chart-wrapper\" id=\"").data ++ chartId
    ++ ("\" data-chart=\"").data ++ c.encoded
    ++ ("\"></div>\n        </div>\n    ").data

/-- The placeholder-substitution loop of `renderDiscovery` (part_001
251–264): each chart replaces the first occurrence of its (plain or
HTML-escaped) token in the rendered insight with its container html. -/
def chartLoop (index : Nat) : List Chart → Nat → Str → Str
  | [], _, ih => ih
  | c :: rest, cIndex, ih =>
    let ph := placeholderOf c index cIndex
    let ch := renderChartContainer c (containerId index cIndex)
    let ih' :=
      if includesSub ph ih then replaceFirst ph ch ih
      else if includesSub (escapeHtml ph) ih then replaceFirst (escapeHtml ph) ch ih
      else ih
    chartLoop index rest (cIndex + 1) ih'

/-- The `id="chart-${index}-${cIndex}"` marker the append phase tests. -/
def markerOf (index cIndex : Nat) : Str :=
  ("id=\"").data ++ containerId index cIndex ++ [ '"' ]

/-- The append phase of `renderDiscovery` (part_001 275–284): a chart whose
container marker is absent from the final insight html is appended. -/
def appendLoop (index : Nat) : List Chart → Nat → Str → Str
  | [], _, _ => []
  | c :: rest, cIndex, ihF =>
    (if includesSub (markerOf index cIndex) ihF then []
      else renderChartContainer c (containerId index cIndex))
      ++ appendLoop index rest (cIndex + 1) ihF

/-- The opening of the discovery html up to the insight interpolation. -/
def discHeader (title : Option Str) (index : Nat) : Str :=
  ("\n        <div class=\"discovery\">\n            <h3 class=\"discovery-title\">").data
    ++ escapeHtml (jsOrS title (("发现 ").data ++ natToStr (index + 1)))
    ++ ("</h3>\n            <div class=\"discovery-content markdown-content\">\n                ").data

/-- The text between the insight interpolation and the appended charts. -/
def discClose : Str := ("\n            </div>\n    ").data

/-- The optional `data_interpretation` block. -/
def interpPart (di : Option Str) : Str :=
  match di with
  | some s =>
    if s.isEmpty then []
    else ("<div class=\"discovery-interpretation\">💡 ").data ++ escapeHtml s ++
      ("</div>").data
  | none => []

/-- `renderDiscovery` (part_001 243–292). -/
def renderDiscovery (d : Discovery) (index : Nat) : Str :=
  discHeader d.title index
    ++ chartLoop index d.charts 0 (renderMarkdownR (jsOrS d.insight (jsOrS d.content [])))
    ++ discClose
    ++ appendLoop index d.charts 0
        (chartLoop index d.charts 0 (renderMarkdownR (jsOrS d.insight (jsOrS d.content []))))
    ++ interpPart d.data_interpretation ++ ("</div>").data

/-- A chart whose id, title and encoded payload are concrete. -/
def cexChart : Chart := ⟨some ("c1").data, some ("Bar").data, ("QUJD").data⟩

/-- A discovery whose insight text contains the literal container marker. -/
def cexDiscovery : Discovery :=
  ⟨some ("T").data, some ("see id=\"chart-0-0\" ok").data, none, [cexChart], none⟩

set_option maxRecDepth 20000 in
/-- C8, counterexample: a chart *is* dropped when the insight text already
contains the literal container marker `id="chart-0-0"`.  No placeholder
occurs, so nothing is substituted; the append check then finds the marker
inside the user text and skips the chart, whose rendered container (and its
unique encoded payload) is absent from the output. -/
theorem C8_counterexample :
    includesSub (renderChartContainer cexChart (("chart-0-0").data))
        (renderDiscovery cexDiscovery 0) = false ∧
    includesSub (("QUJD").data) (renderDiscovery cexDiscovery 0) = false := by
  decide

theorem includesSub_iff (pat : Str) :
    ∀ s : Str, includesSub pat s = true ↔ ∃ u v, s = u ++ pat ++ v
  | [] => by
    simp only [includesSub, List.isEmpty_iff]
    constructor
    · intro h
      exact ⟨[], [], by simp [h]⟩
    · rintro ⟨u, v, huv⟩
      rcases u with _ | ⟨a, u'⟩
      · rcases pat with _ | ⟨b, p'⟩
        · rfl
        · simp at huv
      · simp at huv
  | c :: rest => by
    simp only [includesSub, Bool.or_eq_true]
    constructor
    · rintro (hp | hrec)
      · obtain ⟨t, ht⟩ := List.isPrefixOf_iff_prefix.1 hp
        exact ⟨[], t, by rw [← ht]; simp⟩
      · obtain ⟨u, v, huv⟩ := (includesSub_iff pat rest).1 hrec
        exact ⟨c :: u, v, by rw [huv]; rfl⟩
    · rintro ⟨u, v, huv⟩
      rcases u with _ | ⟨a, u'⟩
      · left
        exact List.isPrefixOf_iff_prefix.2 ⟨v, by simpa using huv.symm⟩
      · right
        have h2 := List.cons.inj huv
        exact (includesSub_iff pat rest).2 ⟨u', v, h2.2⟩

theorem replaceFirst_of_found (pat repl : Str) :
    ∀ s : Str, includesSub pat s = true →
      ∃ u v, s = u ++ pat ++ v ∧ replaceFirst pat repl s = u ++ repl ++ v
  | [] => fun h => by
    simp only [includesSub, List.isEmpty_iff] at h
    exact ⟨[], [], by simp [h], by simp [replaceFirst, h]⟩
  | c :: rest => fun h => by
    by_cases hp : pat.isPrefixOf (c :: rest) = true
    · obtain ⟨t, ht⟩ := List.isPrefixOf_iff_prefix.1 hp
      refine ⟨[], t, by rw [← ht]; simp, ?_⟩
      simp only [replaceFirst, if_pos hp]
      rw [← ht, List.drop_left]
      rfl
    · have hrec : includesSub pat rest = true := by
        simp only [includesSub, Bool.or_eq_true] at h
        rcases h with h | h
        · exact absurd h hp
        · exact h
      obtain ⟨u, v, huv, hrw⟩ := replaceFirst_of_found pat repl rest hrec
      refine ⟨c :: u, v, by rw [huv]; rfl, ?_⟩
      simp only [replaceFirst, hp, if_false, hrw]
      rfl

/-- The container html always carries its own `id="chart-i-c"` marker. -/
theorem markerOf_infix_container (c : Chart) (i j : Nat) :
    ∃ u v, renderChartContainer c (containerId i j) = u ++ markerOf i j ++ v := by
  refine ⟨("\n        <div class=\"chart-container\">\n            <h4 class=\"chart-title\">").data
      ++ escapeHtml (jsOrS c.title (("图表").data))
      ++ ("</h4>\n            <div class=\"chart-wrapper\" ").data,
    (" data-chart=\"").data ++ c.encoded ++ ("\"></div>\n        </div>\n    ").data, ?_⟩
  unfold renderChartContainer markerOf
  rw [show ("</h4>\n            <div class=\"chart-wrapper\" id=\"").data =
      ("</h4>\n            <div class=\"chart-wrapper\" ").data ++ ("id=\"").data from rfl]
  rw [show ("\" data-chart=\"").data = '"' :: (" data-chart=\"").data from rfl]
  simp [List.append_assoc]

/-- No chart's placeholder token (plain or escaped) occurs in `ih`. -/
def NoTokens (index : Nat) : List Chart → Nat → Str → Prop
  | [], _, _ => True
  | c :: rest, cIndex, ih =>
    includesSub (placeholderOf c index cIndex) ih = false ∧
    includesSub (escapeHtml (placeholderOf c index cIndex)) ih = false ∧
    NoTokens index rest (cIndex + 1) ih

/-- No chart's container marker occurs in `ih`. -/
def NoMarkers (index : Nat) : List Chart → Nat → Str → Prop
  | [], _, _ => True
  | _ :: rest, cIndex, ih =>
    includesSub (markerOf index cIndex) ih = false ∧
    NoMarkers index rest (cIndex + 1) ih

instance decNoTokens (index : Nat) :
    ∀ (charts : List Chart) (cIndex : Nat) (ih : Str),
      Decidable (NoTokens index charts cIndex ih)
  | [], _, _ => .isTrue trivial
  | _ :: rest, cIndex, ih =>
    haveI := decNoTokens index rest (cIndex + 1) ih
    inferInstanceAs (Decidable (_ ∧ _ ∧ _))

instance decNoMarkers (index : Nat) :
    ∀ (charts : List Chart) (cIndex : Nat) (ih : Str),
      Decidable (NoMarkers index charts cIndex ih)
  | [], _, _ => .isTrue trivial
  | _ :: rest, cIndex, ih =>
    haveI := decNoMarkers index rest (cIndex + 1) ih
    inferInstanceAs (Decidable (_ ∧ _))

theorem chartLoop_id (index : Nat) :
    ∀ (charts : List Chart) (cIndex : Nat) (ih : Str),
      NoTokens index charts cIndex ih → chartLoop index charts cIndex ih = ih
  | [], _, _, _ => rfl
  | c :: rest, cIndex, ih, ⟨h1, h2, h3⟩ => by
    simp only [chartLoop, h1, h2, Bool.false_eq_true, if_false]
    exact chartLoop_id index rest (cIndex + 1) ih h3

/-- The concatenation of all charts' container html, in order. -/
def allChartsHtml (index : Nat) : List Chart → Nat → Str
  | [], _ => []
  | c :: rest, cIndex =>
    renderChartContainer c (containerId index cIndex) ++
      allChartsHtml index rest (cIndex + 1)

theorem appendLoop_all (index : Nat) :
    ∀ (charts : List Chart) (cIndex : Nat) (ihF : Str),
      NoMarkers index charts cIndex ihF →
      appendLoop index charts cIndex ihF = allChartsHtml index charts cIndex
  | [], _, _, _ => rfl
  | c :: rest, cIndex, ihF, ⟨h1, h2⟩ => by
    simp only [appendLoop, allChartsHtml, h1, Bool.false_eq_true, if_false]
    rw [appendLoop_all index rest (cIndex + 1) ihF h2]

/-- C8 (amended).  (1) When the rendered insight contains none of the
charts' placeholder tokens (plain or HTML-escaped) and none of the container
markers `id="chart-i-c"`, `renderDiscovery` appends every chart's container
html, in order, after the insight text — no chart is dropped.  (2) A
single-chart discovery whose rendered insight does contain the chart's
placeholder token has the token's first occurrence replaced by the chart's
container html inside the insight, and the chart is not appended a second
time.  (The counterexample shows the necessity of the marker hypothesis:
insight text that already contains a container marker suppresses the
append and drops the chart.) -/
theorem C8_placeholder_resolution :
    (∀ (d : Discovery) (index : Nat),
      NoTokens index d.charts 0 (renderMarkdownR (jsOrS d.insight (jsOrS d.content []))) →
      NoMarkers index d.charts 0 (renderMarkdownR (jsOrS d.insight (jsOrS d.content []))) →
      renderDiscovery d index =
        discHeader d.title index ++
          renderMarkdownR (jsOrS d.insight (jsOrS d.content [])) ++ discClose ++
          allChartsHtml index d.charts 0 ++ interpPart d.data_interpretation ++
          ("</div>").data) ∧
    (∀ (ti co di : Option Str) (ins : Str) (c : Chart) (index : Nat),
      ins ≠ [] →
      includesSub (placeholderOf c index 0) (renderMarkdownR ins) = true →
      ∃ u v, renderMarkdownR ins = u ++ placeholderOf c index 0 ++ v ∧
        renderDiscovery ⟨ti, some ins, co, [c], di⟩ index =
          discHeader ti index ++
            (u ++ renderChartContainer c (containerId index 0) ++ v) ++ discClose ++
            interpPart di ++ ("</div>").data) := by
  constructor
  · intro d index hTok hMark
    unfold renderDiscovery
    rw [chartLoop_id index d.charts 0 _ hTok,
      appendLoop_all index d.charts 0 _ hMark]
  · intro ti co di ins c index hins hp
    have hcontent : jsOrS (some ins) (jsOrS co []) = ins := by
      cases ins with
      | nil => exact absurd rfl hins
      | cons a l => rfl
    obtain ⟨u, v, hsplit, hrepl⟩ :=
      replaceFirst_of_found (placeholderOf c index 0)
        (renderChartContainer c (containerId index 0)) (renderMarkdownR ins) hp
    refine ⟨u, v, hsplit, ?_⟩
    have hloop : chartLoop index [c] 0 (renderMarkdownR ins) =
        u ++ renderChartContainer c (containerId index 0) ++ v := by
      simp only [chartLoop, hp, if_true]
      exact hrepl
    have hmarker : includesSub (markerOf index 0)
        (u ++ renderChartContainer c (containerId index 0) ++ v) = true := by
      obtain ⟨u3, v3, h3⟩ := markerOf_infix_container c index 0
      refine (includesSub_iff (markerOf index 0) _).2 ⟨u ++ u3, v3 ++ v, ?_⟩
      rw [h3]
      simp [List.append_assoc]
    have happend : appendLoop index [c] 0
        (u ++ renderChartContainer c (containerId index 0) ++ v) = [] := by
      simp only [appendLoop, hmarker, if_true]
      rfl
    unfold renderDiscovery
    simp only [hcontent, hloop, happend]
    simp [List.append_assoc]

set_option maxRecDepth 20000 in
/-- C8 witness: a two-chart discovery with a token-free, marker-free insight
has both charts appended in order, and a single-chart discovery whose
insight carries the placeholder token has it substituted in place. -/
theorem C8_placeholder_resolution_witness :
    (renderDiscovery ⟨some ("T").data, some ("hello").data, none,
        [⟨some ("c1").data, some ("Bar").data, ("QUJD").data⟩,
         ⟨some ("c2").data, none, ("RUZH").data⟩], some ("note").data⟩ 0 =
      discHeader (some ("T").data) 0 ++
        renderMarkdownR (jsOrS (some ("hello").data) (jsOrS none [])) ++ discClose ++
        allChartsHtml 0
          [⟨some ("c1").data, some ("Bar").data, ("QUJD").data⟩,
           ⟨some ("c2").data, none, ("RUZH").data⟩] 0 ++
        interpPart (some ("note").data) ++ ("</div>").data) ∧
    (∃ u v, renderMarkdownR (("before \x7b\x7bCHART:c1\x7d\x7d after").data) =
        u ++ placeholderOf ⟨some ("c1").data, some ("Bar").data, ("QUJD").data⟩ 0 0 ++ v ∧
      renderDiscovery ⟨some ("T").data,
          some (("before \x7b\x7bCHART:c1\x7d\x7d after").data), none,
          [⟨some ("c1").data, some ("Bar").data, ("QUJD").data⟩], none⟩ 0 =
        discHeader (some ("T").data) 0 ++
          (u ++ renderChartContainer ⟨some ("c1").data, some ("Bar").data, ("QUJD").data⟩
            (containerId 0 0) ++ v) ++ discClose ++
          interpPart none ++ ("</div>").data) :=
  ⟨C8_placeholder_resolution.1
      ⟨some ("T").data, some ("hello").data, none,
        [⟨some ("c1").data, some ("Bar").data, ("QUJD").data⟩,
         ⟨some ("c2").data, none, ("RUZH").data⟩], some ("note").data⟩ 0
      (by decide) (by decide),
    C8_placeholder_resolution.2 (some ("T").data) none none
      (("before \x7b\x7bCHART:c1\x7d\x7d after").data)
      ⟨some ("c1").data, some ("Bar").data, ("QUJD").data⟩ 0
      (by decide) (by decide)⟩

end NM
